import Mathlib

set_option linter.unusedSectionVars false
set_option linter.unusedVariables false

/-!
Verification of the `tod` terminal coding agent's orchestration core.

The definitions below are a shallow embedding of the TypeScript sources:
  * `src/core/message-manager.ts` (class `MessageManager`)
  * `src/core/agent.ts` (class `Agent`, `runAgentLoop`, `MAX_AGENT_ITERATIONS`)
  * `src/core/llm-client.ts` (shape of `StreamChunk` / tool-call fragments)
  * `src/agent/backgroundManager.ts` (class `BackgroundTaskManager`)
  * `src/tools/index.ts` (`executeTool`)

JavaScript `Map<K, V>` objects (ephemeral context, accumulated tool calls,
the background-task table) preserve insertion order and overwrite in place;
they are embedded as association lists with in-place update.  External
collaborators (the model streaming API, the filesystem, `JSON.parse`,
timers, `Date.now()`) are parameters of the embedded functions.  Promise
settlement of an `async` function is embedded as an explicit
resolved/rejected outcome; awaits inside the agent loop are numbered
suspension steps so the cooperative `AbortController` history can be
modelled as a function from suspension step to whether `abort()` has been
called, the per-iteration `signal` capture reading that history.
-/

namespace Tod

/-! ## Association-list maps (JS `Map` semantics) -/

section AssocMap

variable {κ : Type} {α : Type} [BEq κ]

/-- `Map.get`: value of the first (and, in reachable states, only) entry
with the given key. -/
def alookup (l : List (κ × α)) (k : κ) : Option α :=
  (l.find? (fun p => p.1 == k)).map (fun p => p.2)

/-- `Map.set`: overwrite in place when the key is present (insertion order
kept), append otherwise. -/
def aset (l : List (κ × α)) (k : κ) (v : α) : List (κ × α) :=
  if l.any (fun p => p.1 == k) then
    l.map (fun p => if p.1 == k then (k, v) else p)
  else
    l ++ [(k, v)]

/-- `Map.delete`. -/
def aerase (l : List (κ × α)) (k : κ) : List (κ × α) :=
  l.filter (fun p => !(p.1 == k))

end AssocMap

/-! ## Data model: conversation messages (`src/core/message-manager.ts`) -/

/-- Message roles of `ChatCompletionMessageParam`. -/
inductive Role
  | system
  | user
  | assistant
  | tool
deriving DecidableEq, Repr

/-- A recorded tool-call request (`{id, type: 'function', function: {name, arguments}}`;
the constant `type` tag is omitted). -/
structure ToolCallReq where
  id : String
  name : String
  arguments : String
deriving DecidableEq, Repr

/-- One conversation message.  `content` is `none` exactly where the source
stores JavaScript `null` (assistant messages that only carry tool calls);
`tool_call_id` is set on tool-role messages; `tool_calls` is non-empty only
on assistant messages recorded via `addToolCall`. -/
structure ChatMessage where
  role : Role
  content : Option String
  tool_call_id : Option String
  tool_calls : List ToolCallReq
deriving DecidableEq, Repr

/-- `{role: 'system', content}`. -/
def systemMsg (content : String) : ChatMessage :=
  ⟨Role.system, some content, none, []⟩

/-- State of `class MessageManager`: the persisted message list plus the
keyed ephemeral context `Map`. -/
structure MessageManager where
  messages : List ChatMessage
  ephemeralContext : List (String × String)
deriving DecidableEq, Repr

namespace MessageManager

/-- Constructor + `reset()`: a single system-prompt message, empty
ephemeral context.  The system prompt text (`getSystemPrompt(...)`) is an
external collaborator and is passed in. -/
def create (systemPrompt : String) : MessageManager :=
  ⟨[systemMsg systemPrompt], []⟩

/-- `setEphemeralContext(key, content)` — overwrite by key. -/
def setEphemeralContext (mm : MessageManager) (key content : String) :
    MessageManager :=
  { mm with ephemeralContext := aset mm.ephemeralContext key content }

/-- `removeEphemeralContext(key)`. -/
def removeEphemeralContext (mm : MessageManager) (key : String) :
    MessageManager :=
  { mm with ephemeralContext := aerase mm.ephemeralContext key }

/-- `addMessage(role, content, metadata)`.  The source builds the message by
role: tool → `content || ''` with `tool_call_id: metadata?.tool_call_id || ''`;
assistant → `content || null` plus `metadata.tool_calls` when supplied;
anything else → a user message with `content || ''`.  (The optional
`metadata.name` field is never set by the agent loop and is not modelled.) -/
def addMessage (mm : MessageManager) (role : Role) (content : String)
    (metaToolCallId : Option String) (metaToolCalls : Option (List ToolCallReq)) :
    MessageManager :=
  let msg : ChatMessage :=
    match role with
    | Role.tool => ⟨Role.tool, some content, some (metaToolCallId.getD ""), []⟩
    | Role.assistant =>
        ⟨Role.assistant, if content = "" then none else some content, none,
          metaToolCalls.getD []⟩
    | _ => ⟨Role.user, some content, none, []⟩
  { mm with messages := mm.messages ++ [msg] }

/-- `addSystemMessage(content)`. -/
def addSystemMessage (mm : MessageManager) (content : String) : MessageManager :=
  { mm with messages := mm.messages ++ [systemMsg content] }

/-- `addToolCall(toolCalls)`: an assistant message with `content: null` and
the given tool-call request list. -/
def addToolCall (mm : MessageManager) (toolCalls : List ToolCallReq) :
    MessageManager :=
  { mm with messages := mm.messages ++ [⟨Role.assistant, none, none, toolCalls⟩] }

/-- `getMessages()` (returns a copy of the list). -/
def getMessages (mm : MessageManager) : List ChatMessage :=
  mm.messages

/-- `getMessagesWithEphemeral()`: `this.messages` when there is no ephemeral
context, otherwise the system prompt (`this.messages[0]`; there is always at
least one message in reachable states, embedded as `take 1`), the ephemeral
entries as synthetic system messages in map order, then the rest of the
history. -/
def getMessagesWithEphemeral (mm : MessageManager) : List ChatMessage :=
  if mm.ephemeralContext.isEmpty then
    mm.messages
  else
    mm.messages.take 1
      ++ mm.ephemeralContext.map (fun p => systemMsg p.2)
      ++ mm.messages.drop 1

/-- `getConversationMessages()` — everything after the system prompt. -/
def getConversationMessages (mm : MessageManager) : List ChatMessage :=
  mm.messages.drop 1

/-- `compact(summary)`: keep the system prompt (`this.messages[0]`, embedded
as `take 1`) and one synthetic summary message; the ephemeral context map is
not touched. -/
def compact (mm : MessageManager) (summary : String) : MessageManager :=
  { mm with
    messages := mm.messages.take 1
      ++ [systemMsg ("Previous conversation summary:\n" ++ summary)] }

end MessageManager

/-! ## Streaming chunks and tool-call fragment accumulation
(`src/core/llm-client.ts` types, `runAgentLoop` lines 142–153) -/

/-- `function: {name, arguments}` of a tool-call fragment. -/
structure ToolCallFn where
  name : String
  arguments : String
deriving DecidableEq, Repr

/-- `ToolCallChunk`: one streamed tool-call fragment, keyed by its stable
slot `index`. -/
structure ToolCallChunk where
  index : Nat
  id : String
  fn : ToolCallFn
deriving DecidableEq, Repr

/-- `StreamChunk` as produced by `streamCompletion`. -/
structure StreamChunk where
  content : String
  thinking : String
  toolCalls : List ToolCallChunk
deriving DecidableEq, Repr

/-- One step of the accumulator `Map<number, ToolCallChunk>`: a fresh slot
is seeded with empty strings and the fragment's id, then (like an existing
slot) the fragment's `name`/`arguments` substrings are concatenated on. -/
def mergeFrag (acc : List ToolCallChunk) (tc : ToolCallChunk) :
    List ToolCallChunk :=
  if acc.any (fun a => a.index == tc.index) then
    acc.map (fun a =>
      if a.index == tc.index then
        ⟨a.index, a.id,
          ⟨a.fn.name ++ tc.fn.name, a.fn.arguments ++ tc.fn.arguments⟩⟩
      else a)
  else
    acc ++ [⟨tc.index, tc.id, ⟨tc.fn.name, tc.fn.arguments⟩⟩]

/-- Accumulate a list of fragments in arrival order. -/
def mergeFrags (acc : List ToolCallChunk) (frags : List ToolCallChunk) :
    List ToolCallChunk :=
  frags.foldl mergeFrag acc

/-- `accumulatedToolCalls.get(i)`. -/
def accFind (acc : List ToolCallChunk) (i : Nat) : Option ToolCallChunk :=
  acc.find? (fun a => a.index == i)

/-- The fragments of one slot, in arrival order. -/
def slotParts (frags : List ToolCallChunk) (i : Nat) : List ToolCallChunk :=
  frags.filter (fun tc => tc.index == i)

/-- Concatenation of the `name` substrings of a fragment list. -/
def partsName (l : List ToolCallChunk) : String :=
  String.join (l.map (fun tc => tc.fn.name))

/-- Concatenation of the `arguments` substrings of a fragment list. -/
def partsArgs (l : List ToolCallChunk) : String :=
  String.join (l.map (fun tc => tc.fn.arguments))

/-! ## The agent loop (`src/core/agent.ts`, `runAgentLoop` lines 113–236)

The loop is embedded as a fuel-bounded function over an environment of
external collaborators.  Cooperative cancellation: every `await` of the
loop (each chunk read, each tool-result await) increments a suspension-step
counter, and `abort()` can only run at a suspension point (JS is
single-threaded), so the `AbortController` history is a function from
suspension step to whether `abort()` has been called by then.  Crucially,
`abort()` (agent.ts lines 53–58) both aborts the signal and sets
`this.abortController = null`, while each `for` iteration re-captures
`const signal = this.abortController?.signal` (line 117): an iteration
that starts after the abort captures `undefined` and all of its
`signal?.aborted` checks are falsy, whereas an iteration holding the live
signal observes the abort from the moment it fires (`streamCompletion`
takes only `(messages, tools)` and ignores the third argument, so the
HTTP stream itself is never aborted — the checks in the loop are the
whole cancellation mechanism).  Emitted callbacks/log lines are recorded
as events tagged with the suspension step at which they occur. -/

/-- `MAX_AGENT_ITERATIONS` (`src/core/agent.ts`, line 8). -/
def MAX_AGENT_ITERATIONS : Nat := 25

/-- Parsed JSON argument objects are opaque to the loop; `emptyObj` is the
`{}` fallback value. -/
inductive JsonVal
  | emptyObj
  | other (raw : String)
deriving DecidableEq, Repr

/-- Observable effects of one `processMessage` run: `onChunk`/`onToolCall`
callbacks, the parse-failure log line, plus two instrumentation markers
(`streamOpened` for each model round-trip, `chunkProcessed` for each stream
chunk whose processing begins). -/
inductive AgentEvent
  | streamOpened
  | chunkProcessed
  | thinkingChunk (text : String)
  | assistantChunk (text : String)
  | toolCallStart (name : String) (args : JsonVal)
  | toolResult (callId : String) (content : String)
  | parseErrorLogged (toolName : String) (rawArgs : String)
deriving DecidableEq, Repr

/-- External collaborators of the loop: the model streaming client (a
finite chunk sequence per outbound message list), the tool executor
(per its interface contract, a total text-returning function), the host
`JSON.parse`/`JSON.stringify`, the abort history and `Date.now()`.
`aborted t` holds when `abort()` has been called at or before suspension
step `t` — i.e. from step `t` on the signal is aborted and
`this.abortController` is null. -/
structure LoopEnv where
  oracle : List ChatMessage → List StreamChunk
  execTool : String → JsonVal → String
  jsonParse : String → Option JsonVal
  jsonStringify : JsonVal → String
  aborted : Nat → Bool
  now : Nat

/-- `signal?.aborted` at suspension step `t` for the `signal` captured by
`const signal = this.abortController?.signal` (line 117) at the
iteration's start step `capture`: when `abort()` had already run at
capture time the controller was null, the captured `signal` is
`undefined` and every check on it is falsy; otherwise the captured signal
is live and reports the abort state at `t`. -/
def signalAborted (env : LoopEnv) (capture t : Nat) : Bool :=
  if env.aborted capture then false else env.aborted t

/-- State of the `for await (const chunk of ...)` loop. -/
structure StreamAcc where
  assistantMessage : String
  acc : List ToolCallChunk
  step : Nat
  events : List (Nat × AgentEvent)
deriving Repr

/-- The stream-consumption loop (lines 123–154): each chunk read is a
suspension step; a chunk pulled while the captured signal reads aborted is
discarded and the loop breaks (line 128); otherwise thinking text is
surfaced, answer text is accumulated and tool-call fragments are merged
by slot.  `capture` is the step at which the iteration captured its
signal. -/
def consumeStream (env : LoopEnv) (capture : Nat) :
    List StreamChunk → StreamAcc → StreamAcc
  | [], st => st
  | c :: rest, st =>
    let t := st.step + 1
    if signalAborted env capture t then { st with step := t }
    else
      let evs1 := st.events ++ [(t, AgentEvent.chunkProcessed)]
      let evs2 :=
        if c.thinking ≠ "" then evs1 ++ [(t, AgentEvent.thinkingChunk c.thinking)]
        else evs1
      consumeStream env capture rest
        { assistantMessage := st.assistantMessage ++ c.content,
          acc := mergeFrags st.acc c.toolCalls,
          step := t,
          events := evs2 }

/-- One tool call ready to execute (lines 169–191): resolved id, name, the
re-serialised argument string stored in the tool-call request, and the
parsed argument object. -/
structure ToolCallExec where
  id : String
  name : String
  argsRaw : String
  parsedArgs : JsonVal
deriving DecidableEq, Repr

/-- Lines 169–191: synthesise an id when the model supplied none
(`call_${Date.now()}_${idx}`), parse `arguments || '{}'` as JSON, and on
parse failure log the error and fall back to `{}`. -/
def buildCall (env : LoopEnv) (t : Nat) (idx : Nat) (tc : ToolCallChunk) :
    ToolCallExec × List (Nat × AgentEvent) :=
  let id := if tc.id = "" then "call_" ++ toString env.now ++ "_" ++ toString idx
    else tc.id
  let raw := if tc.fn.arguments = "" then "\x7b\x7d" else tc.fn.arguments
  match env.jsonParse raw with
  | some v => (⟨id, tc.fn.name, env.jsonStringify v, v⟩, [])
  | none =>
      (⟨id, tc.fn.name, env.jsonStringify JsonVal.emptyObj, JsonVal.emptyObj⟩,
        [(t, AgentEvent.parseErrorLogged tc.fn.name tc.fn.arguments)])

/-- The sequential tool-execution loop (lines 204–232): the captured
signal is checked before each dispatch (line 205); every executed tool's
(always-async) result is awaited — one suspension step — then persisted
as a tool message referencing the call id and surfaced via callback. -/
def execCalls (env : LoopEnv) (capture : Nat) :
    List ToolCallExec → MessageManager → Nat →
    List (Nat × AgentEvent) → MessageManager × Nat × List (Nat × AgentEvent)
  | [], mm, t, evs => (mm, t, evs)
  | c :: rest, mm, t, evs =>
    if signalAborted env capture t then (mm, t, evs)
    else
      let evs1 := evs ++ [(t, AgentEvent.toolCallStart c.name c.parsedArgs)]
      let result := env.execTool c.name c.parsedArgs
      let t' := t + 1
      let mm' := mm.addMessage Role.tool result (some c.id) none
      let evs2 := evs1 ++ [(t', AgentEvent.toolResult c.id result)]
      execCalls env capture rest mm' t' evs2

/-- Whole-loop state: the message store, the suspension-step counter, the
recorded events and the number of model round-trips performed. -/
structure LoopState where
  mm : MessageManager
  step : Nat
  events : List (Nat × AgentEvent)
  rounds : Nat
deriving Repr

/-- One iteration of the `for` loop (lines 116–235): capture the signal
(line 117: aborted reads on it use `capture := st.step`), check it
(line 118 — the check runs in the same synchronous stretch as the
capture, so it reads `signalAborted env st.step st.step`, which is
`false` whatever the abort history: if `abort()` already ran the capture
yielded `undefined`), stream a completion, persist accumulated answer
text, build the valid (non-empty-name) tool calls, persist the assistant
tool-call request and run the batch.  The returned flag is whether the
loop continues (`false` for the `break`s at lines 118 and 167). -/
def runIter (env : LoopEnv) (st : LoopState) : LoopState × Bool :=
  if signalAborted env st.step st.step then (st, false)
  else
    let evs0 := st.events ++ [(st.step, AgentEvent.streamOpened)]
    let chunks := env.oracle st.mm.getMessagesWithEphemeral
    let sacc := consumeStream env st.step chunks ⟨"", [], st.step, evs0⟩
    let mm1 :=
      if sacc.assistantMessage ≠ "" then
        st.mm.addMessage Role.assistant sacc.assistantMessage none none
      else st.mm
    let evs1 :=
      if sacc.assistantMessage ≠ "" then
        sacc.events ++ [(sacc.step, AgentEvent.assistantChunk sacc.assistantMessage)]
      else sacc.events
    let valid := sacc.acc.filter (fun tc => tc.fn.name != "")
    if valid.isEmpty then
      ({ mm := mm1, step := sacc.step, events := evs1, rounds := st.rounds + 1 },
        false)
    else
      let built := valid.enum.map (fun p => buildCall env sacc.step p.1 p.2)
      let calls := built.map (fun b => b.1)
      let evs2 := evs1 ++ (built.map (fun b => b.2)).flatten
      let mm2 := mm1.addToolCall (calls.map (fun c => ⟨c.id, c.name, c.argsRaw⟩))
      let r := execCalls env st.step calls mm2 sacc.step evs2
      ({ mm := r.1, step := r.2.1, events := r.2.2, rounds := st.rounds + 1 },
        true)

/-- The `for` loop of `runAgentLoop`, fuel-bounded by the iteration cap. -/
def runAgentLoopGo (env : LoopEnv) : Nat → LoopState → LoopState
  | 0, st => st
  | Nat.succ n, st =>
    let r := runIter env st
    if r.2 then runAgentLoopGo env n r.1 else r.1

/-- `runAgentLoop(callbacks)`. -/
def runAgentLoop (env : LoopEnv) (mm : MessageManager) : LoopState :=
  runAgentLoopGo env MAX_AGENT_ITERATIONS ⟨mm, 0, [], 0⟩

/-- `processMessage(userMessage, callbacks)`: push the user message, then
run the agent loop. -/
def processMessage (env : LoopEnv) (mm : MessageManager)
    (userMessage : String) : LoopState :=
  runAgentLoop env (mm.addMessage Role.user userMessage none none)

/-- Content of a chunk list, concatenated (line 139). -/
def chunksContent (chunks : List StreamChunk) : String :=
  String.join (chunks.map (fun c => c.content))

/-- All tool-call fragments of a chunk list, in arrival order. -/
def chunksFrags (chunks : List StreamChunk) : List ToolCallChunk :=
  (chunks.map (fun c => c.toolCalls)).flatten

/-- The valid (non-empty-name) accumulated tool calls an iteration extracts
from an uninterrupted stream for a given outbound message list. -/
def iterValid (env : LoopEnv) (msgs : List ChatMessage) : List ToolCallChunk :=
  (mergeFrags [] (chunksFrags (env.oracle msgs))).filter (fun tc => tc.fn.name != "")

/-- The model requests at least one executable tool call on every
iteration. -/
def alwaysRequestsTools (env : LoopEnv) : Prop :=
  ∀ msgs, iterValid env msgs ≠ []

/-- The persisted tool message for an executed call (lines 223–225). -/
def toolMsgOf (env : LoopEnv) (c : ToolCallExec) : ChatMessage :=
  ⟨Role.tool, some (env.execTool c.name c.parsedArgs), some c.id, []⟩

/-! ## Consistency of the persisted history (claim C3) -/

/-- A message list is consistent (resumable) when every assistant
tool-call-request message is immediately followed by exactly one tool
message per requested call, referencing the call ids in order. -/
inductive ConsistentMsgs : List ChatMessage → Prop
  | nil : ConsistentMsgs []
  | skip (m : ChatMessage) (rest : List ChatMessage) :
      m.tool_calls = [] → ConsistentMsgs rest → ConsistentMsgs (m :: rest)
  | batch (tcs : List ToolCallReq) (results : List ChatMessage)
      (rest : List ChatMessage) :
      tcs ≠ [] →
      results.map (fun r => r.tool_call_id) = tcs.map (fun tc => some tc.id) →
      (∀ r ∈ results, r.role = Role.tool) →
      ConsistentMsgs rest →
      ConsistentMsgs (⟨Role.assistant, none, none, tcs⟩ :: (results ++ rest))

/-! ## Background task manager (`src/agent/backgroundManager.ts`)

The manager's `Map<string, BackgroundTask>` is an association list; the
pending `waitForTask` resolvers are modelled by the set of task ids with a
registered resolver.  `runTask` is an `async` function: its synchronous
prefix (status → running, executed by `createTask`'s fire-and-forget call
up to the first await) is `startTaskRun`, its post-`await` success path
(lines 255–277) is `finishTaskSuccess` and its catch path (lines 278–301)
is `finishTaskFailure`.  `Date.now()` / `new Date()` values are passed in
as `now`.  Observable side effects (`notifyCallbacks`, resolver
settlement, result-listener notification, `scheduleAutoCleanup`) are
returned as events. -/

/-- Task lifecycle states. -/
inductive TaskStatus
  | pending
  | running
  | completed
  | failed
  | cancelled
deriving DecidableEq, Repr

/-- The three right-hand states of the machine are terminal. -/
def TaskStatus.isTerminal : TaskStatus → Bool
  | TaskStatus.completed => true
  | TaskStatus.failed => true
  | TaskStatus.cancelled => true
  | _ => false

/-- `${task.status}` as rendered into error messages. -/
def statusText : TaskStatus → String
  | TaskStatus.pending => "pending"
  | TaskStatus.running => "running"
  | TaskStatus.completed => "completed"
  | TaskStatus.failed => "failed"
  | TaskStatus.cancelled => "cancelled"

/-- `interface BackgroundTask`.  The owned `Agent` instance is represented
by whether its `abort()` has been invoked (`agentAborted`). -/
structure BackgroundTask where
  id : String
  name : String
  description : String
  status : TaskStatus
  activity : String
  agentAborted : Bool
  workingDir : String
  result : Option String
  error : Option String
  startTime : Option Nat
  endTime : Option Nat
deriving DecidableEq, Repr

/-- Observable side effects of manager transitions. -/
inductive BtmEvent
  | taskUpdate (taskId : String)
  | waiterRejected (taskId msg : String)
  | resultNotified (taskId resultText : String)
  | cleanupScheduled (taskId : String)
deriving DecidableEq, Repr

/-- State of `class BackgroundTaskManager`. -/
structure BackgroundTaskManager where
  tasks : List (String × BackgroundTask)
  resolvers : List String
  nextTaskId : Nat
  autoCleanupTimeout : Nat
  maxConcurrentTasks : Nat
deriving DecidableEq, Repr

/-- Register a resolver id (`Map.set` on key only). -/
def rset (l : List String) (k : String) : List String :=
  if k ∈ l then l else l ++ [k]

/-- `resolvers.delete(taskId)`. -/
def rerase (l : List String) (k : String) : List String :=
  l.filter (fun x => x ≠ k)

namespace BackgroundTaskManager

/-- Constructor state: empty task map, id counter 1, 10 s cleanup delay,
ceiling 2. -/
def create : BackgroundTaskManager := ⟨[], [], 1, 10000, 2⟩

/-- `getActiveTasks()`: tasks in `{pending, running}`. -/
def getActiveTasks (m : BackgroundTaskManager) : List BackgroundTask :=
  (m.tasks.map (fun p => p.2)).filter
    (fun t => t.status = TaskStatus.pending ∨ t.status = TaskStatus.running)

/-- `canStartTask()`. -/
def canStartTask (m : BackgroundTaskManager) : Bool :=
  m.getActiveTasks.length < m.maxConcurrentTasks

/-- `getTask(taskId)`. -/
def getTask (m : BackgroundTaskManager) (taskId : String) :
    Option BackgroundTask :=
  alookup m.tasks taskId

/-- The synchronous prefix of `runTask` (lines 210–217): mark running,
record start time, notify. -/
def startTaskRun (m : BackgroundTaskManager) (now : Nat) (taskId : String) :
    BackgroundTaskManager × List BtmEvent :=
  match alookup m.tasks taskId with
  | none => (m, [])
  | some t =>
      let t' : BackgroundTask :=
        { t with
          status := TaskStatus.running
          activity := "Thinking"
          startTime := some now }
      ({ m with tasks := aset m.tasks taskId t' }, [BtmEvent.taskUpdate taskId])

/-- `createTask(name, description, task)` (lines 85–110): throw when the
ceiling is reached, otherwise mint `bg-<n>`, insert the pending record,
notify, and fire off `runTask` (whose synchronous prefix runs before
`createTask` returns).  The first component is the thrown error or the
returned task id; the state is returned alongside to make (non-)mutation
explicit. -/
def createTask (m : BackgroundTaskManager) (now : Nat)
    (cwd name description task : String) :
    Except String String × BackgroundTaskManager × List BtmEvent :=
  if ¬ m.canStartTask then
    (Except.error ("Cannot start new task. Maximum concurrent tasks ("
        ++ toString m.maxConcurrentTasks ++ ") reached."), m, [])
  else
    let taskId := "bg-" ++ toString m.nextTaskId
    let t : BackgroundTask :=
      ⟨taskId, name, description, TaskStatus.pending, "", false, cwd,
        none, none, none, none⟩
    let m₁ : BackgroundTaskManager :=
      { m with
        tasks := aset m.tasks taskId t
        nextTaskId := m.nextTaskId + 1 }
    let r := startTaskRun m₁ now taskId
    (Except.ok taskId, r.1, BtmEvent.taskUpdate taskId :: r.2)

/-- `cancelTask(taskId)` (lines 112–139): not-found and terminal states
throw; otherwise abort the sub-agent, mark cancelled with end time, reject
a pending wait resolver with a cancellation error, and notify. -/
def cancelTask (m : BackgroundTaskManager) (now : Nat) (taskId : String) :
    Except String Unit × BackgroundTaskManager × List BtmEvent :=
  match alookup m.tasks taskId with
  | none => (Except.error ("Task " ++ taskId ++ " not found"), m, [])
  | some t =>
    if t.status.isTerminal then
      (Except.error ("Task " ++ taskId ++ " is already " ++ statusText t.status),
        m, [])
    else
      let t' : BackgroundTask :=
        { t with
          status := TaskStatus.cancelled
          activity := ""
          endTime := some now
          agentAborted := true }
      let rejected :=
        if taskId ∈ m.resolvers then
          [BtmEvent.waiterRejected taskId ("Task " ++ taskId ++ " was cancelled")]
        else []
      (Except.ok (),
        { m with
          tasks := aset m.tasks taskId t'
          resolvers := rerase m.resolvers taskId },
        rejected ++ [BtmEvent.taskUpdate taskId])

/-- JS `task.result` truthiness (`if (task.result)`): present and
non-empty. -/
def strTruthy : Option String → Bool
  | some s => s ≠ ""
  | none => false

/-- `x || fallback` on an optional string. -/
def jsOrElse (o : Option String) (fallback : String) : String :=
  match o with
  | some s => if s = "" then fallback else s
  | none => fallback

/-- Immediate outcome of `waitForTask(taskId)` (lines 141–200): reject
unknown ids; register the resolver, then settle immediately from stored
state when the task is already terminal (deleting the resolver again), or
stay pending. -/
inductive WaitNow
  | resolved (resultText : String)
  | rejected (msg : String)
  | pendingWait
deriving DecidableEq, Repr

def waitForTaskNow (m : BackgroundTaskManager) (taskId : String) :
    WaitNow × BackgroundTaskManager :=
  match alookup m.tasks taskId with
  | none => (WaitNow.rejected ("Task " ++ taskId ++ " not found"), m)
  | some t =>
    match t.status with
    | TaskStatus.completed =>
        if strTruthy t.result then
          (WaitNow.resolved (t.result.getD ""),
            { m with resolvers := rerase (rset m.resolvers taskId) taskId })
        else
          (WaitNow.rejected "Task completed but no result available",
            { m with resolvers := rerase (rset m.resolvers taskId) taskId })
    | TaskStatus.failed =>
        (WaitNow.rejected (jsOrElse t.error "Task failed"),
          { m with resolvers := rerase (rset m.resolvers taskId) taskId })
    | TaskStatus.cancelled =>
        (WaitNow.rejected ("Task " ++ taskId ++ " was cancelled"),
          { m with resolvers := rerase (rset m.resolvers taskId) taskId })
    | _ =>
        (WaitNow.pendingWait, { m with resolvers := rset m.resolvers taskId })

/-- Success path of `runTask` after `processMessage` resolves
(lines 255–277): a task no longer `running` (e.g. cancelled meanwhile) is
left untouched — in particular no result-listener notification fires;
otherwise mark completed (`finalResult || 'Task completed'`), notify,
fire the result listeners when there is a final result, and schedule
auto-cleanup. -/
def finishTaskSuccess (m : BackgroundTaskManager) (now : Nat)
    (taskId finalResult : String) :
    BackgroundTaskManager × List BtmEvent :=
  match alookup m.tasks taskId with
  | none => (m, [])
  | some t =>
    if t.status ≠ TaskStatus.running then (m, [])
    else
      let t' : BackgroundTask :=
        { t with
          status := TaskStatus.completed
          activity := ""
          result := some (if finalResult = "" then "Task completed" else finalResult)
          endTime := some now }
      ({ m with tasks := aset m.tasks taskId t' },
        [BtmEvent.taskUpdate taskId]
          ++ (if finalResult ≠ "" then [BtmEvent.resultNotified taskId finalResult]
              else [])
          ++ [BtmEvent.cleanupScheduled taskId])

/-- Catch path of `runTask` (lines 278–301): an `AbortError` marks the task
cancelled, anything else marks it failed and rejects a pending waiter. -/
def finishTaskFailure (m : BackgroundTaskManager) (now : Nat)
    (taskId errName errMsg : String) :
    BackgroundTaskManager × List BtmEvent :=
  match alookup m.tasks taskId with
  | none => (m, [])
  | some t =>
    if errName = "AbortError" then
      let t' : BackgroundTask :=
        { t with
          status := TaskStatus.cancelled
          activity := ""
          error := some "Task was cancelled"
          endTime := some now }
      ({ m with tasks := aset m.tasks taskId t' },
        [BtmEvent.taskUpdate taskId, BtmEvent.cleanupScheduled taskId])
    else
      let t' : BackgroundTask :=
        { t with
          status := TaskStatus.failed
          activity := ""
          error := some errMsg
          endTime := some now }
      let rejected :=
        if taskId ∈ m.resolvers then
          [BtmEvent.waiterRejected taskId (jsOrElse (some errMsg) "Task failed")]
        else []
      ({ m with
          tasks := aset m.tasks taskId t'
          resolvers := if taskId ∈ m.resolvers then rerase m.resolvers taskId
            else m.resolvers },
        [BtmEvent.taskUpdate taskId] ++ rejected
          ++ [BtmEvent.cleanupScheduled taskId])

/-- The `scheduleAutoCleanup` timer callback (lines 304–313): after the
cleanup delay a still-terminal task record is deleted together with its
resolver entry, and observers are notified. -/
def cleanupFire (m : BackgroundTaskManager) (taskId : String) :
    BackgroundTaskManager × List BtmEvent :=
  match alookup m.tasks taskId with
  | none => (m, [])
  | some t =>
    if t.status.isTerminal then
      ({ m with
          tasks := aerase m.tasks taskId
          resolvers := rerase m.resolvers taskId },
        [BtmEvent.taskUpdate taskId])
    else (m, [])

end BackgroundTaskManager

open BackgroundTaskManager

/-! ## The tool executor (`src/tools/index.ts`, `executeTool` lines 604–711)

`executeTool` is an `async` function whose entire `switch` is wrapped in
`try { ... } catch (error) { return `Error: ...` }`.  Its outcome is the
settlement of the returned promise: awaited operations that throw are
converted to a resolved `"Error: <message>"` text, but a promise returned
from inside the `try` *without* `await` (the `wait_for_task` branch, the
`background_task` branch with `wait: true`, and MCP calls) is adopted
after the function body has exited, so its rejection bypasses the catch
and `executeTool`'s promise rejects.  Filesystem, shell, skills and MCP
collaborators are oracles in `ToolEnv`; `Except.error` is a thrown
error / rejected promise with its message. -/

/-- `interface ToolArgs`. -/
structure ToolArgs where
  path : Option String
  content : Option String
  command : Option String
  name : Option String
  description : Option String
  task : Option String
  task_id : Option String
  wait : Option Bool
deriving DecidableEq, Repr

/-- Settlement of the promise returned by `executeTool`. -/
inductive ToolOutcome
  | resolved (text : String)
  | rejected (errMsg : String)
deriving DecidableEq, Repr

/-- External collaborators of `executeTool`. -/
structure ToolEnv where
  readFileRes : String → Except String String
  writeFileRes : String → String → Except String Unit
  execShellRes : String → Except String (String × String)
  listDirRes : String → Except String (List (Bool × String))
  dirExists : String → Bool
  mkdirRes : String → Except String Unit
  bgm : Option BackgroundTaskManager
  pendingWaitResult : String → Except String String
  skillsList : List (String × String × Bool)
  skillLoad : String → Option String
  mcpActive : Bool
  mcpIsTool : String → Bool
  mcpCallRes : String → Except String String
  cwd : String
  now : Nat

/-- An `await`ed result inside the `try`: a throw is caught and turned
into an `Error:` text. -/
def caughtText : Except String String → ToolOutcome
  | Except.ok s => ToolOutcome.resolved s
  | Except.error msg => ToolOutcome.resolved ("Error: " ++ msg)

/-- A promise returned from inside the `try` without `await`: the catch
never sees its rejection. -/
def passThrough : Except String String → ToolOutcome
  | Except.ok s => ToolOutcome.resolved s
  | Except.error msg => ToolOutcome.rejected msg

/-- Settlement of `waitForTask(taskId)`: immediate outcomes come from the
embedded `waitForTaskNow`; a registration that stays pending settles with
whatever the task's later lifecycle delivers (`pendingWaitResult`
oracle). -/
def waitSettlement (env : ToolEnv) (m : BackgroundTaskManager)
    (taskId : String) : Except String String × BackgroundTaskManager :=
  let w := m.waitForTaskNow taskId
  (match w.1 with
    | WaitNow.resolved r => Except.ok r
    | WaitNow.rejected msg => Except.error msg
    | WaitNow.pendingWait => env.pendingWaitResult taskId, w.2)

/-- `${task.status.toUpperCase()}`. -/
def statusUpper : TaskStatus → String
  | TaskStatus.pending => "PENDING"
  | TaskStatus.running => "RUNNING"
  | TaskStatus.completed => "COMPLETED"
  | TaskStatus.failed => "FAILED"
  | TaskStatus.cancelled => "CANCELLED"

/-- `getTasksSummary()` (`backgroundManager.ts` lines 329–360), the
compact textual status report.  Host number formatting is simplified: the
JS code renders the duration as fractional seconds; here it is the raw
millisecond difference, and `substring(0, 100)` is `String.take 100`. -/
def getTasksSummary (m : BackgroundTaskManager) (now : Nat) : String :=
  let tasks := m.tasks.map (fun p => p.2)
  if tasks.isEmpty then "No background tasks running."
  else
    let active := m.getActiveTasks
    let completed := tasks.filter (fun t => t.status = TaskStatus.completed)
    let failed := tasks.filter (fun t => t.status = TaskStatus.failed)
    let cancelled := tasks.filter (fun t => t.status = TaskStatus.cancelled)
    let header := "Background Tasks (" ++ toString tasks.length ++ " total, "
      ++ toString active.length ++ " active, "
      ++ toString completed.length ++ " completed, "
      ++ toString failed.length ++ " failed, "
      ++ toString cancelled.length ++ " cancelled):\n"
    let lines := tasks.map (fun t =>
      let icon := if t.status = TaskStatus.running then ">"
        else if t.status = TaskStatus.completed then "+"
        else if t.status = TaskStatus.cancelled then "-"
        else if t.status = TaskStatus.failed then "x"
        else "o"
      let duration := match t.startTime with
        | some s => toString ((t.endTime.getD now) - s) ++ "ms"
        | none => "-"
      "  " ++ icon ++ " [" ++ statusUpper t.status ++ "] " ++ t.name
        ++ " (" ++ t.description ++ ") - Duration: " ++ duration ++ "\n"
        ++ (if strTruthy t.result ∧ t.status = TaskStatus.completed then
              "     Result: " ++ (t.result.getD "").take 100
                ++ (if (t.result.getD "").length > 100 then "..." else "") ++ "\n"
            else "")
        ++ (if strTruthy t.error ∧ t.status = TaskStatus.failed then
              "     Error: " ++ t.error.getD "" ++ "\n"
            else "")
        ++ (if t.status = TaskStatus.cancelled then
              "     Task was cancelled\n"
            else ""))
    header ++ String.join lines
      ++ "\nAvailable capacity: "
      ++ toString (m.maxConcurrentTasks - active.length) ++ "/"
      ++ toString m.maxConcurrentTasks ++ " tasks"

/-- `executeTool(toolName, args)`: the settled outcome of the returned
promise, together with the (possibly updated) background manager state. -/
def executeTool (env : ToolEnv) (toolName : String) (args : ToolArgs) :
    ToolOutcome × Option BackgroundTaskManager :=
  if toolName = "read_file" then
    if ¬ strTruthy args.path then
      (ToolOutcome.resolved "Error: Path is required", env.bgm)
    else (caughtText (env.readFileRes (args.path.getD "")), env.bgm)
  else if toolName = "write_file" then
    if ¬ strTruthy args.path ∨ args.content = none then
      (ToolOutcome.resolved "Error: Path and content are required", env.bgm)
    else
      match env.writeFileRes (args.path.getD "") (args.content.getD "") with
      | Except.ok _ =>
          (ToolOutcome.resolved ("File written successfully: "
            ++ args.path.getD ""), env.bgm)
      | Except.error msg => (ToolOutcome.resolved ("Error: " ++ msg), env.bgm)
  else if toolName = "execute_shell" then
    if ¬ strTruthy args.command then
      (ToolOutcome.resolved "Error: Command is required", env.bgm)
    else
      match env.execShellRes (args.command.getD "") with
      | Except.ok r =>
          (ToolOutcome.resolved (if r.1 ≠ "" then r.1
            else if r.2 ≠ "" then r.2 else "Command executed successfully"),
            env.bgm)
      | Except.error msg => (ToolOutcome.resolved ("Error: " ++ msg), env.bgm)
  else if toolName = "list_directory" then
    if ¬ strTruthy args.path then
      (ToolOutcome.resolved "Error: Path is required", env.bgm)
    else
      match env.listDirRes (args.path.getD "") with
      | Except.ok items =>
          (ToolOutcome.resolved (String.intercalate "\n" (items.map
            (fun it => (if it.1 then "[DIR] " else "[FILE] ") ++ it.2))),
            env.bgm)
      | Except.error msg => (ToolOutcome.resolved ("Error: " ++ msg), env.bgm)
  else if toolName = "create_directory" then
    if ¬ strTruthy args.path then
      (ToolOutcome.resolved "Error: Path is required", env.bgm)
    else if ¬ env.dirExists (args.path.getD "") then
      match env.mkdirRes (args.path.getD "") with
      | Except.ok _ =>
          (ToolOutcome.resolved ("Directory created: " ++ args.path.getD ""),
            env.bgm)
      | Except.error msg => (ToolOutcome.resolved ("Error: " ++ msg), env.bgm)
    else
      (ToolOutcome.resolved ("Directory already exists: " ++ args.path.getD ""),
        env.bgm)
  else if toolName = "get_background_tasks" then
    match env.bgm with
    | none =>
        (ToolOutcome.resolved "Error: Background task manager is not initialized",
          none)
    | some m => (ToolOutcome.resolved (getTasksSummary m env.now), some m)
  else if toolName = "background_task" then
    match env.bgm with
    | none =>
        (ToolOutcome.resolved "Error: Background task manager is not initialized",
          none)
    | some m =>
      if ¬ strTruthy args.name ∨ ¬ strTruthy args.description
          ∨ ¬ strTruthy args.task then
        (ToolOutcome.resolved "Error: Name, description and task are required",
          some m)
      else if ¬ m.canStartTask then
        (ToolOutcome.resolved ("Error: Cannot start new task. Maximum concurrent tasks ("
          ++ toString m.maxConcurrentTasks ++ ") reached. Active tasks: "
          ++ String.intercalate ", " (m.getActiveTasks.map
              (fun t => t.name ++ " (" ++ t.id ++ ")"))
          ++ ". Either wait for tasks to complete or use wait=true."), some m)
      else
        match m.createTask env.now env.cwd (args.name.getD "")
            (args.description.getD "") (args.task.getD "") with
        | (Except.error msg, m', _) =>
            (ToolOutcome.resolved ("Error: " ++ msg), some m')
        | (Except.ok taskId, m', _) =>
          if args.wait = some true then
            let w := waitSettlement env m' taskId
            (passThrough w.1, some w.2)
          else
            (ToolOutcome.resolved ("Started: " ++ taskId
              ++ ". Result will appear when done. Continue with your response to the user."),
              some m')
  else if toolName = "wait_for_task" then
    match env.bgm with
    | none =>
        (ToolOutcome.resolved "Error: Background task manager is not initialized",
          none)
    | some m =>
      if ¬ strTruthy args.task_id then
        (ToolOutcome.resolved "Error: Task ID is required", some m)
      else
        let w := waitSettlement env m (args.task_id.getD "")
        (passThrough w.1, some w.2)
  else if toolName = "list_skills" then
    if env.skillsList.isEmpty then
      (ToolOutcome.resolved "Нет доступных навыков. Навыки хранятся в ~/.tod/skills/ (глобальные) или .tod/skills/ (проектные).",
        env.bgm)
    else
      (ToolOutcome.resolved (String.intercalate "\n" (env.skillsList.map
        (fun s => "- " ++ s.1 ++ ": " ++ s.2.1 ++ " "
          ++ (if s.2.2 then "(global)" else "(project)")))), env.bgm)
  else if toolName = "read_skill" then
    if ¬ strTruthy args.name then
      (ToolOutcome.resolved "Error: Skill name is required", env.bgm)
    else
      match env.skillLoad (args.name.getD "") with
      | none =>
          (ToolOutcome.resolved ("Error: Навык \"" ++ args.name.getD ""
            ++ "\" не найден. Используй list_skills чтобы увидеть доступные."),
            env.bgm)
      | some content => (ToolOutcome.resolved content, env.bgm)
  else
    if env.mcpActive ∧ env.mcpIsTool toolName then
      (passThrough (env.mcpCallRes toolName), env.bgm)
    else (ToolOutcome.resolved ("Error: Unknown tool: " ++ toolName), env.bgm)

section AssocMapLemmas

section AssocMapPlain

variable {κ : Type} {α : Type} [BEq κ]

theorem alookup_cons (p : κ × α) (t : List (κ × α)) (j : κ) :
    alookup (p :: t) j = if p.1 == j then some p.2 else alookup t j := by
  by_cases h : (p.1 == j) = true
  · simp [alookup, List.find?_cons_of_pos _ h, h]
  · have h' : (p.1 == j) = false := by simpa using h
    simp [alookup, List.find?_cons_of_neg, h']

theorem aerase_cons (p : κ × α) (t : List (κ × α)) (k : κ) :
    aerase (p :: t) k =
      if p.1 == k then aerase t k else p :: aerase t k := by
  cases hpk : (p.1 == k) <;> simp [aerase, List.filter_cons, hpk]

theorem alookup_eq_none_of_any_false (l : List (κ × α)) (k : κ)
    (h : l.any (fun p => p.1 == k) = false) : alookup l k = none := by
  induction l with
  | nil => rfl
  | cons p t ih =>
    rw [List.any_cons] at h
    have h1 : (p.1 == k) = false := by
      cases hx : (p.1 == k) with
      | false => rfl
      | true => rw [hx] at h; simp at h
    have h2 : t.any (fun p => p.1 == k) = false := by
      cases hx : t.any (fun p => p.1 == k) with
      | false => rfl
      | true => rw [hx] at h; simp at h
    simp [alookup_cons, h1, ih h2]

theorem alookup_append_single_of_none (l : List (κ × α)) (k j : κ) (v : α)
    (h : alookup l j = none) :
    alookup (l ++ [(k, v)]) j = if k == j then some v else none := by
  induction l with
  | nil => simp [alookup_cons]; rfl
  | cons p t ih =>
    rw [alookup_cons] at h
    by_cases hp : (p.1 == j) = true
    · simp [hp] at h
    · have hp' : (p.1 == j) = false := by simpa using hp
      rw [hp'] at h
      simp at h
      simpa [alookup_cons, hp'] using ih (by simpa using h)

theorem alookup_append_single_of_some (l : List (κ × α)) (k j : κ) (v w : α)
    (h : alookup l j = some w) :
    alookup (l ++ [(k, v)]) j = some w := by
  induction l with
  | nil => simp [alookup] at h
  | cons p t ih =>
    rw [alookup_cons] at h
    by_cases hp : (p.1 == j) = true
    · rw [hp] at h
      simp at h
      simp [alookup_cons, hp, h]
    · have hp' : (p.1 == j) = false := by simpa using hp
      rw [hp'] at h
      simp at h
      simpa [alookup_cons, hp'] using ih h

theorem not_mem_keys_of_any_false (l : List (κ × α)) (k : κ) [LawfulBEq κ]
    (h : l.any (fun p => p.1 == k) = false) : k ∉ l.map Prod.fst := by
  intro hmem
  rcases List.mem_map.mp hmem with ⟨p, hp, hpk⟩
  have ht : l.any (fun p => p.1 == k) = true :=
    List.any_eq_true.mpr ⟨p, hp, by simp [hpk]⟩
  rw [h] at ht
  exact absurd ht (by simp)

theorem any_key_false_of_not_mem (t : List (κ × α)) (k : κ) [LawfulBEq κ]
    (h : k ∉ t.map Prod.fst) : t.any (fun q => q.1 == k) = false := by
  cases hx : t.any (fun q => q.1 == k) with
  | false => rfl
  | true =>
    rcases List.any_eq_true.mp hx with ⟨q, hq, hqk⟩
    exact absurd (List.mem_map.mpr ⟨q, hq, by simpa using hqk⟩) h

/-- In-place overwriting does not change the key sequence. -/
theorem mapset_keys (l : List (κ × α)) (k : κ) (v : α) [LawfulBEq κ] :
    (l.map (fun p => if p.1 == k then (k, v) else p)).map Prod.fst
      = l.map Prod.fst := by
  induction l with
  | nil => rfl
  | cons p t ih =>
    cases hpk : (p.1 == k) with
    | true =>
      have hp1 : p.1 = k := by simpa using hpk
      simpa [hpk, hp1] using ih
    | false => simpa [hpk] using ih

end AssocMapPlain

section AssocMapLawful

variable {κ : Type} {α : Type} [BEq κ] [LawfulBEq κ]

/-- Overwriting the key-`k` entries in place does not change lookups at
other keys. -/
theorem alookup_mapset_ne (l : List (κ × α)) (k j : κ) (v : α) (h : j ≠ k) :
    alookup (l.map (fun p => if p.1 == k then (k, v) else p)) j = alookup l j := by
  induction l with
  | nil => rfl
  | cons p t ih =>
    cases hpk : (p.1 == k) with
    | true =>
      have hp1 : p.1 = k := by simpa using hpk
      have hkj : (k == j) = false := by
        simp only [beq_eq_false_iff_ne, ne_eq]; exact fun e => h e.symm
      have hpj : (p.1 == j) = false := by rw [hp1]; exact hkj
      simp [alookup_cons, hpk, hkj, hpj, ih]
    | false =>
      simp [alookup_cons, hpk, ih]

theorem alookup_mapset_self (l : List (κ × α)) (k : κ) (v : α)
    (h : l.any (fun p => p.1 == k) = true) :
    alookup (l.map (fun p => if p.1 == k then (k, v) else p)) k = some v := by
  induction l with
  | nil => simp at h
  | cons p t ih =>
    cases hpk : (p.1 == k) with
    | true => simp [alookup_cons, hpk]
    | false =>
      have ht : t.any (fun p => p.1 == k) = true := by
        rw [List.any_cons, hpk] at h
        simpa using h
      simp [alookup_cons, hpk, ih ht]

theorem alookup_aset_self (l : List (κ × α)) (k : κ) (v : α) :
    alookup (aset l k v) k = some v := by
  cases hc : l.any (fun p => p.1 == k) with
  | true => simp [aset, hc, alookup_mapset_self l k v hc]
  | false =>
    have hnone := alookup_eq_none_of_any_false l k hc
    simp [aset, hc, alookup_append_single_of_none l k k v hnone]

theorem alookup_aset_ne (l : List (κ × α)) (k j : κ) (v : α) (h : j ≠ k) :
    alookup (aset l k v) j = alookup l j := by
  cases hc : l.any (fun p => p.1 == k) with
  | true => simp [aset, hc, alookup_mapset_ne l k j v h]
  | false =>
    have hkj : (k == j) = false := by
      simp only [beq_eq_false_iff_ne, ne_eq]; exact fun e => h e.symm
    cases halj : alookup l j with
    | some w => simp [aset, hc, alookup_append_single_of_some l k j v w halj, halj]
    | none => simp [aset, hc, alookup_append_single_of_none l k j v halj, hkj, halj]

theorem alookup_aerase_self (l : List (κ × α)) (k : κ) :
    alookup (aerase l k) k = none := by
  induction l with
  | nil => rfl
  | cons p t ih =>
    cases hpk : (p.1 == k) with
    | true => simpa [aerase_cons, hpk] using ih
    | false => simpa [aerase_cons, hpk, alookup_cons] using ih

theorem alookup_aerase_ne (l : List (κ × α)) (k j : κ) (h : j ≠ k) :
    alookup (aerase l k) j = alookup l j := by
  induction l with
  | nil => rfl
  | cons p t ih =>
    cases hpk : (p.1 == k) with
    | true =>
      have hp1 : p.1 = k := by simpa using hpk
      have hpj : (p.1 == j) = false := by
        simp only [beq_eq_false_iff_ne, ne_eq, hp1]
        exact fun e => h e.symm
      simpa [aerase_cons, hpk, alookup_cons, hpj] using ih
    | false => simp [aerase_cons, hpk, alookup_cons, ih]

theorem map_fix_of_any_false (t : List (κ × α)) (k : κ) (v : α)
    (h : t.any (fun q => q.1 == k) = false) :
    t.map (fun q => if q.1 == k then (k, v) else q) = t := by
  induction t with
  | nil => rfl
  | cons p t ih =>
    rw [List.any_cons] at h
    cases hpk : (p.1 == k) with
    | true => rw [hpk] at h; simp at h
    | false =>
      rw [hpk] at h
      simp only [Bool.false_or] at h
      simp [hpk, ih h]

theorem filter_key_nil_of_any_false (t : List (κ × α)) (k : κ)
    (h : t.any (fun q => q.1 == k) = false) :
    t.filter (fun q => q.1 == k) = [] := by
  induction t with
  | nil => rfl
  | cons p t ih =>
    rw [List.any_cons] at h
    cases hpk : (p.1 == k) with
    | true => rw [hpk] at h; simp at h
    | false =>
      rw [hpk] at h
      simp only [Bool.false_or] at h
      simp [List.filter_cons, hpk, ih h]

/-- `aset` keeps the keys `Nodup`. -/
theorem aset_keys_nodup (l : List (κ × α)) (k : κ) (v : α)
    (h : (l.map Prod.fst).Nodup) : ((aset l k v).map Prod.fst).Nodup := by
  cases hc : l.any (fun p => p.1 == k) with
  | true =>
    rw [aset, if_pos hc, mapset_keys]
    exact h
  | false =>
    have hk : k ∉ l.map Prod.fst := not_mem_keys_of_any_false l k hc
    simp only [aset, hc, Bool.false_eq_true, if_false, List.map_append,
      List.map_cons, List.map_nil]
    exact List.Nodup.append h (List.nodup_singleton k)
      (by simpa [List.disjoint_singleton] using hk)

/-- With distinct keys, `aset` leaves exactly one entry for its key,
carrying the assigned value. -/
theorem filter_aset_self (l : List (κ × α)) (k : κ) (v : α)
    (h : (l.map Prod.fst).Nodup) :
    (aset l k v).filter (fun p => p.1 == k) = [(k, v)] := by
  induction l with
  | nil => simp [aset]
  | cons p t ih =>
    rw [List.map_cons] at h
    have hnd := List.nodup_cons.mp h
    cases hpk : (p.1 == k) with
    | true =>
      have hp1 : p.1 = k := by simpa using hpk
      have hkt : k ∉ t.map Prod.fst := hp1 ▸ hnd.1
      have hanyt := any_key_false_of_not_mem t k hkt
      have hany : (p :: t).any (fun q => q.1 == k) = true := by
        simp [List.any_cons, hpk]
      simp [aset, hany, hpk, map_fix_of_any_false t k v hanyt,
        List.filter_cons, filter_key_nil_of_any_false t k hanyt]
    | false =>
      have hrec := ih hnd.2
      cases ht : t.any (fun q => q.1 == k) with
      | true =>
        have hany : (p :: t).any (fun q => q.1 == k) = true := by
          simp [List.any_cons, hpk, ht]
        rw [aset, if_pos hany]
        rw [aset, if_pos ht] at hrec
        simpa [List.filter_cons, hpk] using hrec
      | false =>
        have hany : (p :: t).any (fun q => q.1 == k) = false := by
          simp [List.any_cons, hpk, ht]
        rw [aset, if_neg (by simp [hany])]
        rw [aset, if_neg (by simp [ht])] at hrec
        simpa [List.filter_cons, hpk] using hrec

end AssocMapLawful

/-! ## Claims C5 and C9 — message store -/

/-- Counterexample to C5 as stated: with one ephemeral entry present,
`compact` followed by `getMessagesWithEphemeral` yields 3 entries, not 2
(the ephemeral map survives compaction and is re-inserted after the system
prompt). -/
theorem compact_outbound_with_ephemeral_ne_two :
    ¬ ((((MessageManager.create "SYS").setEphemeralContext "skill" "S").compact
        "sum").getMessagesWithEphemeral.length = 2) := by
  decide

/-- C5 (amended): `compact(summary)` followed by `getMessagesWithEphemeral()`
yields the original system prompt, then one synthetic system message per
surviving ephemeral entry, then the summary wrapper — `2 + #ephemeral`
entries in total, and exactly 2 precisely when the ephemeral context is
empty, regardless of how many history messages existed before. -/
theorem compact_outbound_shape (mm : MessageManager) (summary : String)
    (h : mm.messages ≠ []) :
    ((mm.compact summary).getMessagesWithEphemeral =
        mm.messages.take 1 ++ mm.ephemeralContext.map (fun p => systemMsg p.2)
          ++ [systemMsg ("Previous conversation summary:\n" ++ summary)]) ∧
    (mm.compact summary).getMessagesWithEphemeral.length
        = 2 + mm.ephemeralContext.length ∧
    (mm.ephemeralContext = [] →
      (mm.compact summary).getMessagesWithEphemeral =
        mm.messages.take 1
          ++ [systemMsg ("Previous conversation summary:\n" ++ summary)]) := by
  cases hm : mm.messages with
  | nil => exact absurd hm h
  | cons a rest =>
    cases he : mm.ephemeralContext with
    | nil =>
      refine ⟨?_, ?_, ?_⟩ <;>
        simp [MessageManager.compact, MessageManager.getMessagesWithEphemeral,
          hm, he]
    | cons e es =>
      refine ⟨?_, ?_, ?_⟩
      · simp [MessageManager.compact, MessageManager.getMessagesWithEphemeral,
          hm, he]
      · simp [MessageManager.compact, MessageManager.getMessagesWithEphemeral,
          hm, he]
        omega
      · intro hcontra
        exact absurd hcontra (by simp)

/-- Witness for `compact_outbound_shape` at a concrete state with one
ephemeral entry and two history turns. -/
theorem compact_outbound_shape_witness :
    ((((MessageManager.create "SYS").addMessage Role.user "hi" none
          none).setEphemeralContext "skill" "S").compact
        "sum").getMessagesWithEphemeral.length
      = 2 + (((MessageManager.create "SYS").addMessage Role.user "hi" none
          none).setEphemeralContext "skill" "S").ephemeralContext.length :=
  (compact_outbound_shape
    (((MessageManager.create "SYS").addMessage Role.user "hi" none
        none).setEphemeralContext "skill" "S") "sum" (by decide)).2.1

/-- C9: setting the same ephemeral key twice keeps a single entry carrying
the second value; the outbound list contains it as a synthetic system
message, its length counts each ephemeral entry exactly once, and neither
call touches the persisted history. -/
theorem ephemeral_upsert_second_wins (mm : MessageManager) (k v₁ v₂ : String)
    (hnd : (mm.ephemeralContext.map Prod.fst).Nodup) :
    ((mm.setEphemeralContext k v₁).setEphemeralContext k v₂).ephemeralContext.filter
        (fun p => p.1 == k) = [(k, v₂)] ∧
    ((mm.setEphemeralContext k v₁).setEphemeralContext k v₂).messages
        = mm.messages ∧
    (mm.setEphemeralContext k v₁).messages = mm.messages ∧
    systemMsg v₂
        ∈ ((mm.setEphemeralContext k v₁).setEphemeralContext
            k v₂).getMessagesWithEphemeral ∧
    ((mm.setEphemeralContext k v₁).setEphemeralContext
          k v₂).getMessagesWithEphemeral.length
      = (mm.messages.take 1).length
        + ((mm.setEphemeralContext k v₁).setEphemeralContext
            k v₂).ephemeralContext.length
        + (mm.messages.drop 1).length := by
  set mm2 := (mm.setEphemeralContext k v₁).setEphemeralContext k v₂ with hmm2
  have hfilter : mm2.ephemeralContext.filter (fun p => p.1 == k) = [(k, v₂)] := by
    rw [hmm2]
    exact filter_aset_self (aset mm.ephemeralContext k v₁) k v₂
      (aset_keys_nodup mm.ephemeralContext k v₁ hnd)
  have hmemf : (k, v₂) ∈ mm2.ephemeralContext.filter (fun p => p.1 == k) := by
    rw [hfilter]; exact List.mem_singleton.mpr rfl
  have hmem : (k, v₂) ∈ mm2.ephemeralContext := (List.mem_filter.mp hmemf).1
  have hempty : mm2.ephemeralContext.isEmpty = false := by
    cases hx : mm2.ephemeralContext with
    | nil => rw [hx] at hmem; exact absurd hmem (by simp)
    | cons _ _ => rfl
  refine ⟨hfilter, rfl, rfl, ?_, ?_⟩
  · have hmapmem : systemMsg v₂
        ∈ mm2.ephemeralContext.map (fun p => systemMsg p.2) :=
      List.mem_map.mpr ⟨(k, v₂), hmem, rfl⟩
    have hmsgs : mm2.messages = mm.messages := rfl
    rw [MessageManager.getMessagesWithEphemeral, hempty]
    simp only [Bool.false_eq_true, if_false, hmsgs]
    exact List.mem_append.mpr (Or.inl (List.mem_append.mpr (Or.inr hmapmem)))
  · have hmsgs : mm2.messages = mm.messages := rfl
    rw [MessageManager.getMessagesWithEphemeral, hempty]
    simp only [Bool.false_eq_true, if_false, hmsgs, List.length_append,
      List.length_map]

/-- Witness for `ephemeral_upsert_second_wins` on a fresh manager. -/
theorem ephemeral_upsert_second_wins_witness :
    (((MessageManager.create "SYS").setEphemeralContext "skill"
        "v1").setEphemeralContext "skill" "v2").ephemeralContext.filter
      (fun p => p.1 == "skill") = [("skill", "v2")] :=
  (ephemeral_upsert_second_wins (MessageManager.create "SYS") "skill" "v1" "v2"
    (by decide)).1

theorem strJoin_cons (a : String) (l : List String) :
    String.join (a :: l) = a ++ String.join l := by
  have key : ∀ (m : List String) (s t : String),
      m.foldl (fun r u => r ++ u) (s ++ t) = s ++ m.foldl (fun r u => r ++ u) t := by
    intro m
    induction m with
    | nil => intro s t; rfl
    | cons x xs ih =>
      intro s t
      simp only [List.foldl_cons]
      rw [String.append_assoc]
      exact ih s (t ++ x)
  show (a :: l).foldl (fun r u => r ++ u) "" = a ++ l.foldl (fun r u => r ++ u) ""
  simp only [List.foldl_cons]
  have h1 : ("" ++ a) = a ++ "" := by
    rw [String.empty_append, String.append_empty]
  rw [h1, key l a ""]

theorem partsName_cons (tc : ToolCallChunk) (l : List ToolCallChunk) :
    partsName (tc :: l) = tc.fn.name ++ partsName l := by
  unfold partsName
  rw [List.map_cons, strJoin_cons]

theorem partsArgs_cons (tc : ToolCallChunk) (l : List ToolCallChunk) :
    partsArgs (tc :: l) = tc.fn.arguments ++ partsArgs l := by
  unfold partsArgs
  rw [List.map_cons, strJoin_cons]

theorem accFind_cons (a : ToolCallChunk) (t : List ToolCallChunk) (i : Nat) :
    accFind (a :: t) i = if a.index == i then some a else accFind t i := by
  by_cases h : (a.index == i) = true
  · simp [accFind, List.find?_cons_of_pos _ h, h]
  · have h' : (a.index == i) = false := by simpa using h
    simp [accFind, List.find?_cons_of_neg, h']

theorem accFind_map_update_self (acc : List ToolCallChunk) (i : Nat)
    (g : ToolCallChunk → ToolCallChunk) (hg : ∀ a, (g a).index = a.index) :
    accFind (acc.map (fun a => if a.index == i then g a else a)) i
      = (accFind acc i).map g := by
  induction acc with
  | nil => rfl
  | cons b t ih =>
    rw [List.map_cons, accFind_cons, accFind_cons]
    cases hb : (b.index == i) with
    | true =>
      have hbi : b.index = i := by simpa using hb
      simp [hg b, hbi]
    | false =>
      simp [hb]
      simpa using ih

theorem accFind_map_update_ne (acc : List ToolCallChunk) (i j : Nat)
    (g : ToolCallChunk → ToolCallChunk) (hg : ∀ a, (g a).index = a.index)
    (h : j ≠ i) :
    accFind (acc.map (fun a => if a.index == j then g a else a)) i
      = accFind acc i := by
  induction acc with
  | nil => rfl
  | cons b t ih =>
    rw [List.map_cons, accFind_cons, accFind_cons]
    cases hb : (b.index == j) with
    | true =>
      have hbj : b.index = j := by simpa using hb
      simp [hg b, hbj, h]
      simpa using ih
    | false =>
      simp [hb]
      rcases eq_or_ne b.index i with hbi | hbi
      · simp [hbi]
      · simp [hbi]
        simpa using ih

theorem accFind_append_single (acc : List ToolCallChunk) (b : ToolCallChunk)
    (i : Nat) :
    accFind (acc ++ [b]) i =
      match accFind acc i with
      | some a => some a
      | none => if b.index == i then some b else none := by
  induction acc with
  | nil => simp [accFind_cons]; rfl
  | cons a t ih =>
    cases ha : (a.index == i) with
    | true => simp [accFind_cons, ha]
    | false => simp [accFind_cons, ha, ih]

theorem accFind_none_any_false (acc : List ToolCallChunk) (j : Nat)
    (h : accFind acc j = none) : acc.any (fun a => a.index == j) = false := by
  induction acc with
  | nil => rfl
  | cons b t ih =>
    rw [accFind_cons] at h
    cases hb : (b.index == j) with
    | true => rw [hb] at h; simp at h
    | false =>
      rw [hb] at h
      simp only [Bool.false_eq_true, if_false] at h
      simp [List.any_cons, hb, ih h]

theorem accFind_some_any_true (acc : List ToolCallChunk) (j : Nat)
    (a : ToolCallChunk) (h : accFind acc j = some a) :
    acc.any (fun b => b.index == j) = true := by
  induction acc with
  | nil => simp [accFind] at h
  | cons b t ih =>
    rw [accFind_cons] at h
    cases hb : (b.index == j) with
    | true => simp [List.any_cons, hb]
    | false =>
      rw [hb] at h
      simp only [Bool.false_eq_true, if_false] at h
      simp [List.any_cons, hb, ih h]

theorem accFind_mergeFrag_found (acc : List ToolCallChunk) (tc : ToolCallChunk)
    (i : Nat) (a : ToolCallChunk) (hti : tc.index = i)
    (hacc : accFind acc i = some a) :
    accFind (mergeFrag acc tc) i
      = some ⟨a.index, a.id,
          ⟨a.fn.name ++ tc.fn.name, a.fn.arguments ++ tc.fn.arguments⟩⟩ := by
  have hany : acc.any (fun b => b.index == tc.index) = true := by
    rw [hti]; exact accFind_some_any_true acc i a hacc
  rw [mergeFrag, if_pos hany, hti]
  rw [accFind_map_update_self acc i
    (fun a => ⟨a.index, a.id,
      ⟨a.fn.name ++ tc.fn.name, a.fn.arguments ++ tc.fn.arguments⟩⟩)
    (fun b => rfl), hacc]
  rfl

theorem accFind_mergeFrag_fresh (acc : List ToolCallChunk) (tc : ToolCallChunk)
    (i : Nat) (hti : tc.index = i) (hacc : accFind acc i = none) :
    accFind (mergeFrag acc tc) i
      = some ⟨tc.index, tc.id, ⟨tc.fn.name, tc.fn.arguments⟩⟩ := by
  have hany : acc.any (fun b => b.index == tc.index) = false := by
    rw [hti]; exact accFind_none_any_false acc i hacc
  rw [mergeFrag, if_neg (by simp [hany]), accFind_append_single, hacc]
  simp [hti]

theorem accFind_mergeFrag_other (acc : List ToolCallChunk) (tc : ToolCallChunk)
    (i : Nat) (hti : tc.index ≠ i) :
    accFind (mergeFrag acc tc) i = accFind acc i := by
  cases hany : acc.any (fun b => b.index == tc.index) with
  | true =>
    rw [mergeFrag, if_pos hany]
    exact accFind_map_update_ne acc i tc.index
      (fun a => ⟨a.index, a.id,
        ⟨a.fn.name ++ tc.fn.name, a.fn.arguments ++ tc.fn.arguments⟩⟩)
      (fun b => rfl) hti
  | false =>
    rw [mergeFrag, if_neg (by simp [hany]), accFind_append_single]
    cases hacc : accFind acc i with
    | some a => simp
    | none =>
      have : (tc.index == i) = false := by simpa using hti
      simp [this]

/-- Core accumulation lemma (occupied slot): folding any fragment list onto
an accumulator that already holds slot `i` concatenates that slot's
per-slot `name`/`arguments` substrings, in arrival order, onto the stored
strings; the stored `id` is kept. -/
theorem accFind_mergeFrags_some (frags : List ToolCallChunk)
    (acc : List ToolCallChunk) (i : Nat) (a : ToolCallChunk)
    (hacc : accFind acc i = some a) :
    accFind (mergeFrags acc frags) i
      = some ⟨a.index, a.id,
          ⟨a.fn.name ++ partsName (slotParts frags i),
           a.fn.arguments ++ partsArgs (slotParts frags i)⟩⟩ := by
  induction frags generalizing acc a with
  | nil =>
    simp only [mergeFrags, List.foldl_nil, hacc, slotParts, List.filter_nil]
    have h1 : partsName ([] : List ToolCallChunk) = "" := rfl
    have h2 : partsArgs ([] : List ToolCallChunk) = "" := rfl
    rw [h1, h2, String.append_empty, String.append_empty]
  | cons tc rest ih =>
    have hstep : mergeFrags acc (tc :: rest) = mergeFrags (mergeFrag acc tc) rest := rfl
    rw [hstep]
    by_cases hti : tc.index = i
    · have hmap := accFind_mergeFrag_found acc tc i a hti hacc
      rw [ih (mergeFrag acc tc)
        ⟨a.index, a.id, ⟨a.fn.name ++ tc.fn.name, a.fn.arguments ++ tc.fn.arguments⟩⟩
        hmap]
      have hslot : slotParts (tc :: rest) i = tc :: slotParts rest i := by
        have : (tc.index == i) = true := by simpa using hti
        simp [slotParts, List.filter_cons, this]
      rw [hslot, partsName_cons, partsArgs_cons]
      simp [String.append_assoc]
    · have hmap := accFind_mergeFrag_other acc tc i hti
      have hslot : slotParts (tc :: rest) i = slotParts rest i := by
        have : (tc.index == i) = false := by simpa using hti
        simp [slotParts, List.filter_cons, this]
      rw [hslot]
      exact ih (mergeFrag acc tc) a (hmap.trans hacc)

/-- Core accumulation lemma (slot absent, no fragments): the slot stays
absent. -/
theorem accFind_mergeFrags_none_nil (frags : List ToolCallChunk)
    (acc : List ToolCallChunk) (i : Nat) (hacc : accFind acc i = none)
    (hslot : slotParts frags i = []) :
    accFind (mergeFrags acc frags) i = none := by
  induction frags generalizing acc with
  | nil => simpa [mergeFrags] using hacc
  | cons tc rest ih =>
    have hstep : mergeFrags acc (tc :: rest) = mergeFrags (mergeFrag acc tc) rest := rfl
    rw [hstep]
    by_cases hti : tc.index = i
    · exfalso
      have : (tc.index == i) = true := by simpa using hti
      simp [slotParts, List.filter_cons, this] at hslot
    · have hbi : (tc.index == i) = false := by simpa using hti
      have hslot' : slotParts rest i = [] := by
        simpa [slotParts, List.filter_cons, hbi] using hslot
      exact ih (mergeFrag acc tc)
        ((accFind_mergeFrag_other acc tc i hti).trans hacc) hslot'

/-- Core accumulation lemma (slot created by the fragments): the final slot
entry carries the first fragment's id and the concatenation, in arrival
order, of the slot's `name`/`arguments` substrings. -/
theorem accFind_mergeFrags_none_cons (frags : List ToolCallChunk)
    (acc : List ToolCallChunk) (i : Nat) (h₀ : ToolCallChunk)
    (tl : List ToolCallChunk) (hacc : accFind acc i = none)
    (hslot : slotParts frags i = h₀ :: tl) :
    accFind (mergeFrags acc frags) i
      = some ⟨i, h₀.id,
          ⟨partsName (slotParts frags i), partsArgs (slotParts frags i)⟩⟩ := by
  induction frags generalizing acc with
  | nil => simp [slotParts] at hslot
  | cons tc rest ih =>
    have hstep : mergeFrags acc (tc :: rest) = mergeFrags (mergeFrag acc tc) rest := rfl
    rw [hstep]
    by_cases hti : tc.index = i
    · have hbi : (tc.index == i) = true := by simpa using hti
      have hslotc : slotParts (tc :: rest) i = tc :: slotParts rest i := by
        simp [slotParts, List.filter_cons, hbi]
      have hh : h₀ = tc := by
        rw [hslotc] at hslot
        exact (List.cons_eq_cons.mp hslot).1.symm
      have hmap := accFind_mergeFrag_fresh acc tc i hti hacc
      rw [accFind_mergeFrags_some rest (mergeFrag acc tc) i
        ⟨tc.index, tc.id, ⟨tc.fn.name, tc.fn.arguments⟩⟩ hmap]
      rw [hslotc, partsName_cons, partsArgs_cons, hh, hti]
    · have hbi : (tc.index == i) = false := by simpa using hti
      have hslot' : slotParts rest i = h₀ :: tl := by
        simpa [slotParts, List.filter_cons, hbi] using hslot
      have hslote : slotParts (tc :: rest) i = slotParts rest i := by
        simp [slotParts, List.filter_cons, hbi]
      rw [hslote]
      exact ih (mergeFrag acc tc)
        ((accFind_mergeFrag_other acc tc i hti).trans hacc) hslot'

/-! ## Claim C1 — fragment accumulation reconstructs whole tool calls -/

/-- C1: for every fragment sequence that splits a whole tool call
`{name, arguments}` over slot `i` at arbitrary boundaries (the per-slot
`name`/`arguments` substrings concatenate, in arrival order, to the whole
strings), the per-slot accumulation of `runAgentLoop` reconstructs exactly
the `{name, arguments}` pair that a single whole-call fragment would
produce. -/
theorem toolcall_accumulation_split_eq_whole (frags : List ToolCallChunk)
    (i : Nat) (nm args wid : String)
    (hne : slotParts frags i ≠ [])
    (hn : partsName (slotParts frags i) = nm)
    (ha : partsArgs (slotParts frags i) = args) :
    (accFind (mergeFrags [] frags) i).map (fun a => (a.fn.name, a.fn.arguments))
        = some (nm, args) ∧
    (accFind (mergeFrags [] [⟨i, wid, ⟨nm, args⟩⟩]) i).map
        (fun a => (a.fn.name, a.fn.arguments)) = some (nm, args) := by
  constructor
  · cases hslot : slotParts frags i with
    | nil => exact absurd hslot hne
    | cons h₀ tl =>
      rw [accFind_mergeFrags_none_cons frags [] i h₀ tl rfl hslot]
      simp [hn, ha]
  · have hfresh := accFind_mergeFrag_fresh [] ⟨i, wid, ⟨nm, args⟩⟩ i rfl rfl
    have : mergeFrags [] [(⟨i, wid, ⟨nm, args⟩⟩ : ToolCallChunk)]
        = mergeFrag [] ⟨i, wid, ⟨nm, args⟩⟩ := rfl
    rw [this, hfresh]
    simp

/-- Witness for `toolcall_accumulation_split_eq_whole`: two interleaved
slots, each split into two fragments (one of them character-level). -/
theorem toolcall_accumulation_split_eq_whole_witness :
    (accFind (mergeFrags []
          [⟨0, "a", ⟨"re", ""⟩⟩, ⟨1, "b", ⟨"li", "x"⟩⟩,
           ⟨0, "", ⟨"ad", "yz"⟩⟩, ⟨1, "", ⟨"st", "w"⟩⟩]) 0).map
        (fun a => (a.fn.name, a.fn.arguments)) = some ("read", "yz") ∧
    (accFind (mergeFrags [] [⟨0, "w", ⟨"read", "yz"⟩⟩]) 0).map
        (fun a => (a.fn.name, a.fn.arguments)) = some ("read", "yz") :=
  toolcall_accumulation_split_eq_whole
    [⟨0, "a", ⟨"re", ""⟩⟩, ⟨1, "b", ⟨"li", "x"⟩⟩,
     ⟨0, "", ⟨"ad", "yz"⟩⟩, ⟨1, "", ⟨"st", "w"⟩⟩]
    0 "read" "yz" "w" (by decide) (by decide) (by decide)

theorem ConsistentMsgs.append {xs ys : List ChatMessage}
    (hx : ConsistentMsgs xs) (hy : ConsistentMsgs ys) :
    ConsistentMsgs (xs ++ ys) := by
  induction hx with
  | nil => simpa using hy
  | skip m rest hm _ ih => exact ConsistentMsgs.skip m _ hm ih
  | batch tcs results rest hne hids hroles _ ih =>
    have hassoc : (⟨Role.assistant, none, none, tcs⟩ :: (results ++ rest)) ++ ys
        = ⟨Role.assistant, none, none, tcs⟩ :: (results ++ (rest ++ ys)) := by
      simp
    rw [hassoc]
    exact ConsistentMsgs.batch tcs results (rest ++ ys) hne hids hroles ih

/-! ## Structural lemmas about the loop -/

theorem mergeFrags_append (acc : List ToolCallChunk)
    (xs ys : List ToolCallChunk) :
    mergeFrags acc (xs ++ ys) = mergeFrags (mergeFrags acc xs) ys := by
  unfold mergeFrags
  simp [List.foldl_append]

theorem chunksContent_cons (c : StreamChunk) (rest : List StreamChunk) :
    chunksContent (c :: rest) = c.content ++ chunksContent rest := by
  unfold chunksContent
  rw [List.map_cons, strJoin_cons]

theorem chunksFrags_cons (c : StreamChunk) (rest : List StreamChunk) :
    chunksFrags (c :: rest) = c.toolCalls ++ chunksFrags rest := by
  unfold chunksFrags
  rw [List.map_cons]
  rfl

/-- When `abort()` is never called, every `signal?.aborted` check is
false, whatever the capture step. -/
theorem signalAborted_of_never {env : LoopEnv}
    (hab : ∀ t, env.aborted t = false) (capture t : Nat) :
    signalAborted env capture t = false := by
  unfold signalAborted
  rw [hab capture, hab t]
  simp

/-- Line 118 is dead code: the `if (signal?.aborted) break` check runs in
the same synchronous stretch as the capture at line 117, so it reads the
just-captured signal at the capture step itself — `undefined` if `abort()`
already ran (controller nulled), not yet aborted otherwise. -/
theorem signalAborted_self (env : LoopEnv) (c : Nat) :
    signalAborted env c c = false := by
  unfold signalAborted
  cases h : env.aborted c <;> simp [h]

/-- Uninterrupted stream consumption: with a never-aborted signal, the
`for await` loop consumes every chunk, concatenates all answer text, merges
all tool-call fragments, and advances the suspension counter by one step
per chunk. -/
theorem consumeStream_hab (env : LoopEnv) (capture : Nat)
    (hab : ∀ t, env.aborted t = false) (chunks : List StreamChunk) :
    ∀ st : StreamAcc, ∃ evs,
      consumeStream env capture chunks st =
        ⟨st.assistantMessage ++ chunksContent chunks,
         mergeFrags st.acc (chunksFrags chunks),
         st.step + chunks.length,
         st.events ++ evs⟩ := by
  induction chunks with
  | nil =>
    intro st
    refine ⟨[], ?_⟩
    show st = _
    have h1 : chunksContent [] = "" := rfl
    have h2 : chunksFrags [] = [] := rfl
    rw [h1, h2, String.append_empty]
    simp [mergeFrags]
  | cons c rest ih =>
    intro st
    obtain ⟨evs', hrec⟩ := ih
      { assistantMessage := st.assistantMessage ++ c.content,
        acc := mergeFrags st.acc c.toolCalls,
        step := st.step + 1,
        events :=
          if c.thinking ≠ "" then
            st.events ++ [(st.step + 1, AgentEvent.chunkProcessed)]
              ++ [(st.step + 1, AgentEvent.thinkingChunk c.thinking)]
          else st.events ++ [(st.step + 1, AgentEvent.chunkProcessed)] }
    refine ⟨(if c.thinking ≠ "" then
        [(st.step + 1, AgentEvent.chunkProcessed),
         (st.step + 1, AgentEvent.thinkingChunk c.thinking)]
      else [(st.step + 1, AgentEvent.chunkProcessed)]) ++ evs', ?_⟩
    show consumeStream env capture (c :: rest) st = _
    rw [consumeStream]
    simp only [signalAborted_of_never hab capture (st.step + 1),
      Bool.false_eq_true, if_false]
    by_cases hth : c.thinking ≠ ""
    · simp only [if_pos hth] at hrec ⊢
      rw [hrec]
      rw [chunksContent_cons, chunksFrags_cons, mergeFrags_append]
      have : st.step + 1 + rest.length = st.step + (rest.length + 1) := by omega
      rw [this, String.append_assoc]
      simp [List.append_assoc]
    · simp only [if_neg hth] at hrec ⊢
      rw [hrec]
      rw [chunksContent_cons, chunksFrags_cons, mergeFrags_append]
      have : st.step + 1 + rest.length = st.step + (rest.length + 1) := by omega
      rw [this, String.append_assoc]
      simp [List.append_assoc]

/-- Uninterrupted tool batch: with a never-aborted signal the loop executes
every call in request order, appending exactly one tool message per call
(referencing its id), and awaits once per call. -/
theorem execCalls_hab (env : LoopEnv) (capture : Nat)
    (hab : ∀ t, env.aborted t = false) (calls : List ToolCallExec) :
    ∀ (mm : MessageManager) (t : Nat) (evs : List (Nat × AgentEvent)),
      ∃ evs',
        execCalls env capture calls mm t evs =
          ({ mm with messages := mm.messages ++ calls.map (toolMsgOf env) },
           t + calls.length, evs ++ evs') := by
  induction calls with
  | nil =>
    intro mm t evs
    refine ⟨[], ?_⟩
    show (mm, t, evs) = _
    simp
  | cons c rest ih =>
    intro mm t evs
    obtain ⟨evs', hrec⟩ := ih
      (mm.addMessage Role.tool (env.execTool c.name c.parsedArgs) (some c.id) none)
      (t + 1)
      (evs ++ [(t, AgentEvent.toolCallStart c.name c.parsedArgs)]
        ++ [(t + 1, AgentEvent.toolResult c.id (env.execTool c.name c.parsedArgs))])
    refine ⟨[(t, AgentEvent.toolCallStart c.name c.parsedArgs),
      (t + 1, AgentEvent.toolResult c.id (env.execTool c.name c.parsedArgs))]
      ++ evs', ?_⟩
    show execCalls env capture (c :: rest) mm t evs = _
    rw [execCalls]
    simp only [signalAborted_of_never hab capture t, Bool.false_eq_true,
      if_false]
    rw [hrec]
    have harith : t + 1 + rest.length = t + (rest.length + 1) := by omega
    simp [MessageManager.addMessage, toolMsgOf, List.append_assoc, harith]

/-- A tool-call-request message followed by exactly its tool results is a
consistent batch. -/
theorem consistent_batch_calls (env : LoopEnv) (calls : List ToolCallExec)
    (hne : calls ≠ []) :
    ConsistentMsgs (⟨Role.assistant, none, none,
        calls.map (fun c => (⟨c.id, c.name, c.argsRaw⟩ : ToolCallReq))⟩
      :: calls.map (toolMsgOf env)) := by
  have h := ConsistentMsgs.batch
    (calls.map (fun c => (⟨c.id, c.name, c.argsRaw⟩ : ToolCallReq)))
    (calls.map (toolMsgOf env)) []
    (by simpa using hne)
    (by
      simp only [List.map_map]
      refine List.map_congr_left ?_
      intro a _
      rfl)
    (by
      intro r hr
      rcases List.mem_map.mp hr with ⟨c, _, rfl⟩
      rfl)
    ConsistentMsgs.nil
  simpa using h

/-- One uninterrupted iteration: the round counter advances by one, the
persisted history grows by a self-contained consistent batch (optional
assistant text, then — when valid tool calls were accumulated — one
tool-call request message followed by its tool results in order), and the
loop continues exactly when a valid tool call was accumulated. -/
theorem runIter_hab (env : LoopEnv) (hab : ∀ t, env.aborted t = false)
    (st : LoopState) :
    ∃ B, (runIter env st).1.mm.messages = st.mm.messages ++ B ∧
      ConsistentMsgs B ∧
      (runIter env st).1.rounds = st.rounds + 1 ∧
      ((runIter env st).2 = true ↔
        iterValid env st.mm.getMessagesWithEphemeral ≠ []) := by
  obtain ⟨evsS, hS⟩ := consumeStream_hab env st.step hab
    (env.oracle st.mm.getMessagesWithEphemeral)
    ⟨"", [], st.step, st.events ++ [(st.step, AgentEvent.streamOpened)]⟩
  unfold runIter
  simp only [signalAborted_self env st.step, Bool.false_eq_true, if_false]
  rw [hS]
  simp only [String.empty_append]
  cases hv : (iterValid env st.mm.getMessagesWithEphemeral).isEmpty with
  | true =>
    have hvnil : iterValid env st.mm.getMessagesWithEphemeral = [] := by
      simpa using hv
    rw [show (mergeFrags []
        (chunksFrags (env.oracle st.mm.getMessagesWithEphemeral))).filter
          (fun tc => tc.fn.name != "")
        = iterValid env st.mm.getMessagesWithEphemeral from rfl, hvnil]
    by_cases hA : chunksContent (env.oracle st.mm.getMessagesWithEphemeral) = ""
    · refine ⟨[], ?_, ConsistentMsgs.nil, ?_, ?_⟩ <;>
        simp [hA, MessageManager.addMessage, hvnil]
    · refine ⟨[⟨Role.assistant,
        if chunksContent (env.oracle st.mm.getMessagesWithEphemeral) = ""
          then none
          else some (chunksContent (env.oracle st.mm.getMessagesWithEphemeral)),
        none, []⟩], ?_, ?_, ?_, ?_⟩
      · simp [hA, MessageManager.addMessage]
      · exact ConsistentMsgs.skip _ _ rfl ConsistentMsgs.nil
      · simp [hA]
      · simp [hvnil]
  | false =>
    have hvne : iterValid env st.mm.getMessagesWithEphemeral ≠ [] := by
      intro hx
      rw [hx] at hv
      simp at hv
    rw [show (mergeFrags []
        (chunksFrags (env.oracle st.mm.getMessagesWithEphemeral))).filter
          (fun tc => tc.fn.name != "")
        = iterValid env st.mm.getMessagesWithEphemeral from rfl]
    simp only [hv, Bool.false_eq_true, if_false]
    by_cases hA : chunksContent (env.oracle st.mm.getMessagesWithEphemeral) = ""
    · simp only [hA, ne_eq, not_true_eq_false, if_false]
      obtain ⟨evsE, hE⟩ := execCalls_hab env st.step hab
        (((iterValid env st.mm.getMessagesWithEphemeral).enum.map
            (fun p => buildCall env
              (st.step + (env.oracle st.mm.getMessagesWithEphemeral).length)
              p.1 p.2)).map (fun b => b.1))
        (st.mm.addToolCall
          ((((iterValid env st.mm.getMessagesWithEphemeral).enum.map
              (fun p => buildCall env
                (st.step + (env.oracle st.mm.getMessagesWithEphemeral).length)
                p.1 p.2)).map (fun b => b.1)).map
            (fun c => ⟨c.id, c.name, c.argsRaw⟩)))
        (st.step + (env.oracle st.mm.getMessagesWithEphemeral).length)
        (((st.events ++ [(st.step, AgentEvent.streamOpened)]) ++ evsS)
          ++ (((iterValid env st.mm.getMessagesWithEphemeral).enum.map
              (fun p => buildCall env
                (st.step + (env.oracle st.mm.getMessagesWithEphemeral).length)
                p.1 p.2)).map (fun b => b.2)).flatten)
      rw [hE]
      refine ⟨⟨Role.assistant, none, none,
          (((iterValid env st.mm.getMessagesWithEphemeral).enum.map
              (fun p => buildCall env
                (st.step + (env.oracle st.mm.getMessagesWithEphemeral).length)
                p.1 p.2)).map (fun b => b.1)).map
            (fun c => ⟨c.id, c.name, c.argsRaw⟩)⟩
        :: (((iterValid env st.mm.getMessagesWithEphemeral).enum.map
              (fun p => buildCall env
                (st.step + (env.oracle st.mm.getMessagesWithEphemeral).length)
                p.1 p.2)).map (fun b => b.1)).map (toolMsgOf env),
        ?_, ?_, ?_, ?_⟩
      · simp [MessageManager.addToolCall]
      · refine consistent_batch_calls env _ ?_
        have hlen : (((iterValid env st.mm.getMessagesWithEphemeral).enum.map
            (fun p => buildCall env
              (st.step + (env.oracle st.mm.getMessagesWithEphemeral).length)
              p.1 p.2)).map (fun b => b.1)).length
            = (iterValid env st.mm.getMessagesWithEphemeral).length := by
          simp [List.enum_length]
        intro hx
        rw [hx] at hlen
        exact hvne (List.length_eq_zero.mp hlen.symm)
      · trivial
      · simp [hvne]
    · simp only [hA, ne_eq, not_false_eq_true, if_true]
      obtain ⟨evsE, hE⟩ := execCalls_hab env st.step hab
        (((iterValid env st.mm.getMessagesWithEphemeral).enum.map
            (fun p => buildCall env
              (st.step + (env.oracle st.mm.getMessagesWithEphemeral).length)
              p.1 p.2)).map (fun b => b.1))
        ((st.mm.addMessage Role.assistant
            (chunksContent (env.oracle st.mm.getMessagesWithEphemeral)) none
            none).addToolCall
          ((((iterValid env st.mm.getMessagesWithEphemeral).enum.map
              (fun p => buildCall env
                (st.step + (env.oracle st.mm.getMessagesWithEphemeral).length)
                p.1 p.2)).map (fun b => b.1)).map
            (fun c => ⟨c.id, c.name, c.argsRaw⟩)))
        (st.step + (env.oracle st.mm.getMessagesWithEphemeral).length)
        ((((st.events ++ [(st.step, AgentEvent.streamOpened)]) ++ evsS)
            ++ [(st.step + (env.oracle st.mm.getMessagesWithEphemeral).length,
                AgentEvent.assistantChunk
                  (chunksContent (env.oracle st.mm.getMessagesWithEphemeral)))])
          ++ (((iterValid env st.mm.getMessagesWithEphemeral).enum.map
              (fun p => buildCall env
                (st.step + (env.oracle st.mm.getMessagesWithEphemeral).length)
                p.1 p.2)).map (fun b => b.2)).flatten)
      rw [hE]
      refine ⟨(⟨Role.assistant,
          if chunksContent (env.oracle st.mm.getMessagesWithEphemeral) = "" then
            none
          else some (chunksContent (env.oracle st.mm.getMessagesWithEphemeral)),
          none, []⟩ : ChatMessage)
        :: ⟨Role.assistant, none, none,
            (((iterValid env st.mm.getMessagesWithEphemeral).enum.map
                (fun p => buildCall env
                  (st.step + (env.oracle st.mm.getMessagesWithEphemeral).length)
                  p.1 p.2)).map (fun b => b.1)).map
              (fun c => ⟨c.id, c.name, c.argsRaw⟩)⟩
        :: (((iterValid env st.mm.getMessagesWithEphemeral).enum.map
              (fun p => buildCall env
                (st.step + (env.oracle st.mm.getMessagesWithEphemeral).length)
                p.1 p.2)).map (fun b => b.1)).map (toolMsgOf env),
        ?_, ?_, ?_, ?_⟩
      · simp [MessageManager.addToolCall, MessageManager.addMessage]
      · refine ConsistentMsgs.skip _ _ rfl ?_
        refine consistent_batch_calls env _ ?_
        have hlen : (((iterValid env st.mm.getMessagesWithEphemeral).enum.map
            (fun p => buildCall env
              (st.step + (env.oracle st.mm.getMessagesWithEphemeral).length)
              p.1 p.2)).map (fun b => b.1)).length
            = (iterValid env st.mm.getMessagesWithEphemeral).length := by
          simp [List.enum_length]
        intro hx
        rw [hx] at hlen
        exact hvne (List.length_eq_zero.mp hlen.symm)
      · trivial
      · simp [hvne]

theorem runIter_rounds_le (env : LoopEnv) (st : LoopState) :
    (runIter env st).1.rounds ≤ st.rounds + 1 := by
  simp only [runIter, signalAborted_self, Bool.false_eq_true, if_false]
  split
  · simp
  · simp

theorem runAgentLoopGo_rounds_le (env : LoopEnv) :
    ∀ (fuel : Nat) (st : LoopState),
      (runAgentLoopGo env fuel st).rounds ≤ st.rounds + fuel := by
  intro fuel
  induction fuel with
  | zero => intro st; simp [runAgentLoopGo]
  | succ n ih =>
    intro st
    rw [runAgentLoopGo]
    by_cases hc : (runIter env st).2 = true
    · simp only [hc, if_true]
      have h1 := ih (runIter env st).1
      have h2 := runIter_rounds_le env st
      omega
    · rw [if_neg hc]
      have h2 := runIter_rounds_le env st
      omega

theorem runAgentLoopGo_rounds_exact (env : LoopEnv)
    (hab : ∀ t, env.aborted t = false) (htools : alwaysRequestsTools env) :
    ∀ (fuel : Nat) (st : LoopState),
      (runAgentLoopGo env fuel st).rounds = st.rounds + fuel := by
  intro fuel
  induction fuel with
  | zero => intro st; simp [runAgentLoopGo]
  | succ n ih =>
    intro st
    obtain ⟨B, hmsg, hcons, hrounds, hiff⟩ := runIter_hab env hab st
    have hcont : (runIter env st).2 = true := hiff.mpr (htools _)
    rw [runAgentLoopGo]
    simp only [hcont, if_true]
    rw [ih, hrounds]
    omega

theorem runAgentLoopGo_consistent (env : LoopEnv)
    (hab : ∀ t, env.aborted t = false) :
    ∀ (fuel : Nat) (st : LoopState),
      ConsistentMsgs st.mm.messages →
      ConsistentMsgs (runAgentLoopGo env fuel st).mm.messages := by
  intro fuel
  induction fuel with
  | zero => intro st h; simpa [runAgentLoopGo] using h
  | succ n ih =>
    intro st h
    obtain ⟨B, hmsg, hcons, _, _⟩ := runIter_hab env hab st
    have h1 : ConsistentMsgs (runIter env st).1.mm.messages := by
      rw [hmsg]; exact h.append hcons
    rw [runAgentLoopGo]
    by_cases hc : (runIter env st).2 = true
    · simp only [hc, if_true]
      exact ih _ h1
    · rw [if_neg hc]
      exact h1

/-! ## Claim C3 — iteration cap and consistent history -/

/-- C3: assuming finite model streams (inherent: each stream is a finite
chunk list) and the Tool Executor's text-returning contract, a single
`processMessage` run performs at most `MAX_AGENT_ITERATIONS` (25) model
round-trips; it is a total function (no crash), it exits at the cap even
when the model requests executable tool calls on every iteration, and the
resulting history is consistent: every persisted assistant tool-call
request is immediately followed by its tool-result messages. -/
theorem agent_loop_round_trip_cap (env : LoopEnv) (mm : MessageManager)
    (userMessage : String)
    (hab : ∀ t, env.aborted t = false)
    (hc : ConsistentMsgs mm.messages) :
    (processMessage env mm userMessage).rounds ≤ MAX_AGENT_ITERATIONS ∧
    ConsistentMsgs (processMessage env mm userMessage).mm.messages ∧
    (alwaysRequestsTools env →
      (processMessage env mm userMessage).rounds = MAX_AGENT_ITERATIONS) := by
  have hc' : ConsistentMsgs
      (mm.addMessage Role.user userMessage none none).messages := by
    show ConsistentMsgs
      (mm.messages ++ [⟨Role.user, some userMessage, none, []⟩])
    exact hc.append (ConsistentMsgs.skip _ _ rfl ConsistentMsgs.nil)
  refine ⟨?_, ?_, ?_⟩
  · have := runAgentLoopGo_rounds_le env MAX_AGENT_ITERATIONS
      ⟨mm.addMessage Role.user userMessage none none, 0, [], 0⟩
    simpa [processMessage, runAgentLoop] using this
  · exact runAgentLoopGo_consistent env hab MAX_AGENT_ITERATIONS _ hc'
  · intro htools
    have := runAgentLoopGo_rounds_exact env hab htools MAX_AGENT_ITERATIONS
      ⟨mm.addMessage Role.user userMessage none none, 0, [], 0⟩
    simpa [processMessage, runAgentLoop] using this

/-- Witness for `agent_loop_round_trip_cap`: a model that requests one tool
call on every iteration drives the loop to exactly the cap. -/
theorem agent_loop_round_trip_cap_witness :
    (processMessage
        ⟨fun _ => [⟨"", "", [⟨0, "c1", ⟨"t", "\x7b\x7d"⟩⟩]⟩],
         fun _ _ => "ok", fun _ => some JsonVal.emptyObj, fun _ => "\x7b\x7d",
         fun _ => false, 0⟩
        (MessageManager.create "SYS") "hi").rounds ≤ MAX_AGENT_ITERATIONS ∧
    (processMessage
        ⟨fun _ => [⟨"", "", [⟨0, "c1", ⟨"t", "\x7b\x7d"⟩⟩]⟩],
         fun _ _ => "ok", fun _ => some JsonVal.emptyObj, fun _ => "\x7b\x7d",
         fun _ => false, 0⟩
        (MessageManager.create "SYS") "hi").rounds = MAX_AGENT_ITERATIONS :=
  ⟨(agent_loop_round_trip_cap
      ⟨fun _ => [⟨"", "", [⟨0, "c1", ⟨"t", "\x7b\x7d"⟩⟩]⟩],
       fun _ _ => "ok", fun _ => some JsonVal.emptyObj, fun _ => "\x7b\x7d",
       fun _ => false, 0⟩
      (MessageManager.create "SYS") "hi" (fun _ => rfl)
      (ConsistentMsgs.skip _ _ rfl ConsistentMsgs.nil)).1,
   (agent_loop_round_trip_cap
      ⟨fun _ => [⟨"", "", [⟨0, "c1", ⟨"t", "\x7b\x7d"⟩⟩]⟩],
       fun _ _ => "ok", fun _ => some JsonVal.emptyObj, fun _ => "\x7b\x7d",
       fun _ => false, 0⟩
      (MessageManager.create "SYS") "hi" (fun _ => rfl)
      (ConsistentMsgs.skip _ _ rfl ConsistentMsgs.nil)).2.2
    (fun msgs => by
      have hval : iterValid
          ⟨fun _ => [⟨"", "", [⟨0, "c1", ⟨"t", "\x7b\x7d"⟩⟩]⟩],
           fun _ _ => "ok", fun _ => some JsonVal.emptyObj, fun _ => "\x7b\x7d",
           fun _ => false, 0⟩ msgs
          = [⟨0, "c1", ⟨"t", "\x7b\x7d"⟩⟩] := rfl
      rw [hval]
      simp)⟩

/-! ## Claim C4 — cooperative cancellation

The claim fails on the code.  `abort()` (agent.ts lines 53–58) aborts the
signal and then sets `this.abortController = null`; each `for` iteration
of `runAgentLoop` re-captures `const signal = this.abortController?.signal`
(line 117).  An iteration that was in flight when `abort()` ran holds the
live signal, so it does stop consuming stream chunks (line 128) and skips
the rest of its tool batch (line 205).  But the next iteration captures
`undefined` from the nulled controller: its `signal?.aborted` checks are
all falsy, so a new `streamCompletion` round-trip is started — the loop
does not unwind.  (The loop-top check at line 118 can never fire: there is
no suspension point between the capture and the check, cf.
`signalAborted_self`.)  The run below exhibits it concretely. -/

/-- C4 (refuted — code bug): the claim says that once the cancellation
signal fires mid-stream no tool call of the current batch is dispatched
and no subsequent model round-trip is started.  In this run `abort()`
fires at suspension step 2, while the first round-trip's three-chunk
stream (carrying one complete tool call) is being consumed.  The in-flight
iteration does stop after one chunk and dispatches nothing — but then a
second model round-trip is started (`streamOpened` at step 2, a step at
which the abort has already fired), because the iteration re-captures the
nulled `this.abortController`.  The loop performs 2 round-trips instead of
unwinding after the first. -/
theorem abort_mid_stream_starts_next_round_trip :
    (runAgentLoop
        ⟨fun msgs => if msgs.length = 1 then
            [⟨"", "", [⟨0, "c1", ⟨"t", "\x7b\x7d"⟩⟩]⟩, ⟨"x", "", []⟩,
              ⟨"y", "", []⟩]
          else [],
         fun _ _ => "ok", fun _ => some JsonVal.emptyObj, fun _ => "\x7b\x7d",
         fun t => decide (2 ≤ t), 0⟩
        (MessageManager.create "SYS")).events
      = [(0, AgentEvent.streamOpened), (1, AgentEvent.chunkProcessed),
         (2, AgentEvent.streamOpened)] ∧
    (runAgentLoop
        ⟨fun msgs => if msgs.length = 1 then
            [⟨"", "", [⟨0, "c1", ⟨"t", "\x7b\x7d"⟩⟩]⟩, ⟨"x", "", []⟩,
              ⟨"y", "", []⟩]
          else [],
         fun _ _ => "ok", fun _ => some JsonVal.emptyObj, fun _ => "\x7b\x7d",
         fun t => decide (2 ≤ t), 0⟩
        (MessageManager.create "SYS")).rounds = 2 ∧
    decide (2 ≤ 2) = true := by
  refine ⟨?_, ?_, rfl⟩ <;> decide

/-! ## Claim C6 — malformed tool arguments degrade to `{}` -/

theorem consumeStream_events_mono (env : LoopEnv) (capture : Nat)
    (chunks : List StreamChunk) :
    ∀ st : StreamAcc, ∃ d,
      (consumeStream env capture chunks st).events = st.events ++ d := by
  induction chunks with
  | nil => intro st; exact ⟨[], by simp [consumeStream]⟩
  | cons c rest ih =>
    intro st
    rw [consumeStream]
    cases hx : signalAborted env capture (st.step + 1) with
    | true => exact ⟨[], by simp⟩
    | false =>
      simp only [hx, Bool.false_eq_true, if_false]
      by_cases hth : c.thinking ≠ ""
      · simp only [if_pos hth]
        obtain ⟨d, hd⟩ := ih
          { assistantMessage := st.assistantMessage ++ c.content,
            acc := mergeFrags st.acc c.toolCalls,
            step := st.step + 1,
            events := st.events ++ [(st.step + 1, AgentEvent.chunkProcessed)]
              ++ [(st.step + 1, AgentEvent.thinkingChunk c.thinking)] }
        exact ⟨[(st.step + 1, AgentEvent.chunkProcessed),
          (st.step + 1, AgentEvent.thinkingChunk c.thinking)] ++ d,
          by simpa [List.append_assoc] using hd⟩
      · simp only [if_neg hth]
        obtain ⟨d, hd⟩ := ih
          { assistantMessage := st.assistantMessage ++ c.content,
            acc := mergeFrags st.acc c.toolCalls,
            step := st.step + 1,
            events := st.events ++ [(st.step + 1, AgentEvent.chunkProcessed)] }
        exact ⟨[(st.step + 1, AgentEvent.chunkProcessed)] ++ d,
          by simpa [List.append_assoc] using hd⟩

theorem execCalls_mono (env : LoopEnv) (capture : Nat)
    (calls : List ToolCallExec) :
    ∀ (mm : MessageManager) (t : Nat) (evs : List (Nat × AgentEvent)),
      ∃ d dm, (execCalls env capture calls mm t evs).2.2 = evs ++ d ∧
        (execCalls env capture calls mm t evs).1.messages
          = mm.messages ++ dm := by
  induction calls with
  | nil => intro mm t evs; exact ⟨[], [], by simp [execCalls], by simp [execCalls]⟩
  | cons c rest ih =>
    intro mm t evs
    rw [execCalls]
    cases hx : signalAborted env capture t with
    | true => exact ⟨[], [], by simp, by simp⟩
    | false =>
      simp only [hx, Bool.false_eq_true, if_false]
      obtain ⟨d, dm, hd, hdm⟩ := ih
        (mm.addMessage Role.tool (env.execTool c.name c.parsedArgs) (some c.id) none)
        (t + 1)
        (evs ++ [(t, AgentEvent.toolCallStart c.name c.parsedArgs)]
          ++ [(t + 1, AgentEvent.toolResult c.id (env.execTool c.name c.parsedArgs))])
      refine ⟨[(t, AgentEvent.toolCallStart c.name c.parsedArgs),
        (t + 1, AgentEvent.toolResult c.id (env.execTool c.name c.parsedArgs))] ++ d,
        [⟨Role.tool, some (env.execTool c.name c.parsedArgs), some c.id, []⟩] ++ dm,
        by simpa [List.append_assoc] using hd, ?_⟩
      rw [hdm]
      simp [MessageManager.addMessage, List.append_assoc]

theorem execCalls_keeps (env : LoopEnv) (capture : Nat)
    (calls : List ToolCallExec) :
    ∀ (mm : MessageManager) (t : Nat) (evs : List (Nat × AgentEvent)),
      (∀ x ∈ evs, x ∈ (execCalls env capture calls mm t evs).2.2) ∧
      (∀ m ∈ mm.messages,
        m ∈ (execCalls env capture calls mm t evs).1.messages) := by
  induction calls with
  | nil => intro mm t evs; exact ⟨fun x hx => hx, fun m hm => hm⟩
  | cons c rest ih =>
    intro mm t evs
    rw [execCalls]
    cases hx : signalAborted env capture t with
    | true => exact ⟨fun x hx => hx, fun m hm => hm⟩
    | false =>
      simp only [hx, Bool.false_eq_true, if_false]
      constructor
      · intro x hxe
        exact (ih _ _ _).1 x (by simp [List.mem_append, hxe])
      · intro m hm
        exact (ih _ _ _).2 m
          (by simp [MessageManager.addMessage, List.mem_append, hm])

theorem runIter_keeps (env : LoopEnv) (st : LoopState) :
    (∀ x ∈ st.events, x ∈ (runIter env st).1.events) ∧
    (∀ m ∈ st.mm.messages, m ∈ (runIter env st).1.mm.messages) := by
  obtain ⟨dS, hdS⟩ := consumeStream_events_mono env st.step
    (env.oracle st.mm.getMessagesWithEphemeral)
    ⟨"", [], st.step, st.events ++ [(st.step, AgentEvent.streamOpened)]⟩
  simp only [runIter, signalAborted_self, Bool.false_eq_true, if_false]
  split
  · constructor
    · intro x hxev
      by_cases hA : (consumeStream env st.step
          (env.oracle st.mm.getMessagesWithEphemeral)
          ⟨"", [], st.step,
            st.events ++ [(st.step, AgentEvent.streamOpened)]⟩).assistantMessage
          ≠ ""
      · simp only [if_pos hA, hdS]
        simp [List.mem_append, hxev]
      · simp only [if_neg hA, hdS]
        simp [List.mem_append, hxev]
    · intro m hm
      by_cases hA : (consumeStream env st.step
          (env.oracle st.mm.getMessagesWithEphemeral)
          ⟨"", [], st.step,
            st.events ++ [(st.step, AgentEvent.streamOpened)]⟩).assistantMessage
          ≠ ""
      · simp only [if_pos hA]
        simp [MessageManager.addMessage, List.mem_append, hm]
      · simp only [if_neg hA]
        exact hm
  · constructor
    · intro x hxev
      apply (execCalls_keeps env _ _ _ _ _).1
      by_cases hA : (consumeStream env st.step
          (env.oracle st.mm.getMessagesWithEphemeral)
          ⟨"", [], st.step,
            st.events ++ [(st.step, AgentEvent.streamOpened)]⟩).assistantMessage
          ≠ ""
      · simp only [if_pos hA, hdS]
        simp [List.mem_append, hxev]
      · simp only [if_neg hA, hdS]
        simp [List.mem_append, hxev]
    · intro m hm
      apply (execCalls_keeps env _ _ _ _ _).2
      by_cases hA : (consumeStream env st.step
          (env.oracle st.mm.getMessagesWithEphemeral)
          ⟨"", [], st.step,
            st.events ++ [(st.step, AgentEvent.streamOpened)]⟩).assistantMessage
          ≠ ""
      · simp only [if_pos hA]
        simp [MessageManager.addToolCall, MessageManager.addMessage,
          List.mem_append, hm]
      · simp only [if_neg hA]
        simp [MessageManager.addToolCall, List.mem_append, hm]

theorem runAgentLoopGo_keeps (env : LoopEnv) :
    ∀ (fuel : Nat) (st : LoopState),
      (∀ x ∈ st.events, x ∈ (runAgentLoopGo env fuel st).events) ∧
      (∀ m ∈ st.mm.messages, m ∈ (runAgentLoopGo env fuel st).mm.messages) := by
  intro fuel
  induction fuel with
  | zero => intro st; exact ⟨fun x hx => hx, fun m hm => hm⟩
  | succ n ih =>
    intro st
    rw [runAgentLoopGo]
    by_cases hc : (runIter env st).2 = true
    · simp only [hc, if_true]
      exact ⟨fun x hx => (ih _).1 x ((runIter_keeps env st).1 x hx),
        fun m hm => (ih _).2 m ((runIter_keeps env st).2 m hm)⟩
    · rw [if_neg hc]
      exact runIter_keeps env st

theorem runIter_malformed (env : LoopEnv) (mm : MessageManager)
    (name rawArgs : String)
    (hab : ∀ t, env.aborted t = false)
    (hname : name ≠ "") (hraw : rawArgs ≠ "")
    (hparse : env.jsonParse rawArgs = none)
    (horacle : env.oracle mm.getMessagesWithEphemeral
      = [⟨"", "", [⟨0, "call_1", ⟨name, rawArgs⟩⟩]⟩]) :
    runIter env ⟨mm, 0, [], 0⟩ =
      (⟨(mm.addToolCall
            [⟨"call_1", name, env.jsonStringify JsonVal.emptyObj⟩]).addMessage
          Role.tool (env.execTool name JsonVal.emptyObj) (some "call_1") none,
        2,
        [(0, AgentEvent.streamOpened), (1, AgentEvent.chunkProcessed),
         (1, AgentEvent.parseErrorLogged name rawArgs),
         (1, AgentEvent.toolCallStart name JsonVal.emptyObj),
         (2, AgentEvent.toolResult "call_1" (env.execTool name JsonVal.emptyObj))],
        1⟩, true) := by
  have hne : (name != "") = true := by
    have hb : (name == "") = false := beq_eq_false_iff_ne.mpr hname
    simp [bne, hb]
  simp [runIter, consumeStream, execCalls, buildCall, signalAborted,
    mergeFrags, mergeFrag, List.enum, List.enumFrom, hab, horacle, hparse,
    hne, hraw, MessageManager.addToolCall, MessageManager.addMessage]

/-- C6: when a fully streamed tool call's accumulated argument string fails
to parse as JSON, the turn does not fail: the run is a total function, the
parse failure is logged (`parseErrorLogged`, not fatal), and the tool is
still dispatched and executed with the empty-object argument set `{}`, its
result persisted as the tool message for the call. -/
theorem malformed_args_execute_with_empty_object (env : LoopEnv)
    (mm : MessageManager) (name rawArgs : String)
    (hab : ∀ t, env.aborted t = false)
    (hname : name ≠ "") (hraw : rawArgs ≠ "")
    (hparse : env.jsonParse rawArgs = none)
    (horacle : env.oracle mm.getMessagesWithEphemeral
      = [⟨"", "", [⟨0, "call_1", ⟨name, rawArgs⟩⟩]⟩]) :
    (1, AgentEvent.parseErrorLogged name rawArgs)
        ∈ (runAgentLoop env mm).events ∧
    (1, AgentEvent.toolCallStart name JsonVal.emptyObj)
        ∈ (runAgentLoop env mm).events ∧
    (2, AgentEvent.toolResult "call_1" (env.execTool name JsonVal.emptyObj))
        ∈ (runAgentLoop env mm).events ∧
    (⟨Role.tool, some (env.execTool name JsonVal.emptyObj), some "call_1", []⟩
        : ChatMessage) ∈ (runAgentLoop env mm).mm.messages := by
  have hiter := runIter_malformed env mm name rawArgs hab hname hraw hparse horacle
  have h25 : MAX_AGENT_ITERATIONS = Nat.succ 24 := rfl
  have hstep : runAgentLoop env mm
      = runAgentLoopGo env 24 (runIter env ⟨mm, 0, [], 0⟩).1 := by
    rw [runAgentLoop, h25, runAgentLoopGo]
    simp [hiter]
  rw [hstep]
  refine ⟨?_, ?_, ?_, ?_⟩
  · apply (runAgentLoopGo_keeps env 24 _).1
    rw [hiter]
    simp
  · apply (runAgentLoopGo_keeps env 24 _).1
    rw [hiter]
    simp
  · apply (runAgentLoopGo_keeps env 24 _).1
    rw [hiter]
    simp
  · apply (runAgentLoopGo_keeps env 24 _).2
    rw [hiter]
    simp [MessageManager.addToolCall, MessageManager.addMessage]

/-- Witness for `malformed_args_execute_with_empty_object`: the malformed
argument string is a lone opening brace. -/
theorem malformed_args_execute_with_empty_object_witness :
    (1, AgentEvent.parseErrorLogged "read_file" "\x7b")
        ∈ (runAgentLoop
            ⟨fun _ => [⟨"", "", [⟨0, "call_1", ⟨"read_file", "\x7b"⟩⟩]⟩],
             fun _ _ => "ERR", fun _ => none, fun _ => "\x7b\x7d",
             fun _ => false, 0⟩ (MessageManager.create "SYS")).events ∧
    (1, AgentEvent.toolCallStart "read_file" JsonVal.emptyObj)
        ∈ (runAgentLoop
            ⟨fun _ => [⟨"", "", [⟨0, "call_1", ⟨"read_file", "\x7b"⟩⟩]⟩],
             fun _ _ => "ERR", fun _ => none, fun _ => "\x7b\x7d",
             fun _ => false, 0⟩ (MessageManager.create "SYS")).events := by
  have H := malformed_args_execute_with_empty_object
    ⟨fun _ => [⟨"", "", [⟨0, "call_1", ⟨"read_file", "\x7b"⟩⟩]⟩],
     fun _ _ => "ERR", fun _ => none, fun _ => "\x7b\x7d",
     fun _ => false, 0⟩
    (MessageManager.create "SYS") "read_file" "\x7b"
    (fun _ => rfl) (by decide) (by decide) rfl rfl
  exact ⟨H.1, H.2.1⟩

/-! ## Claims C7, C8, C10 — background task manager -/

/-- C7: when the number of pending/running tasks equals the configured
ceiling, `createTask` throws synchronously and the manager state is
returned unchanged — no task record, no consumed id, no started sub-agent,
no notification. -/
theorem createTask_at_ceiling_throws_unchanged (m : BackgroundTaskManager)
    (now : Nat) (cwd name description task : String)
    (h : m.getActiveTasks.length = m.maxConcurrentTasks) :
    m.createTask now cwd name description task
      = (Except.error ("Cannot start new task. Maximum concurrent tasks ("
          ++ toString m.maxConcurrentTasks ++ ") reached."), m, []) := by
  have hc : m.canStartTask = false := by
    simp [BackgroundTaskManager.canStartTask, h]
  unfold BackgroundTaskManager.createTask
  simp [hc]

/-- Witness for `createTask_at_ceiling_throws_unchanged`: two running
tasks against the default ceiling of 2. -/
theorem createTask_at_ceiling_throws_unchanged_witness :
    BackgroundTaskManager.createTask
        ⟨[("bg-1", ⟨"bg-1", "a", "d", TaskStatus.running, "Thinking", false,
            "/w", none, none, some 0, none⟩),
          ("bg-2", ⟨"bg-2", "b", "d", TaskStatus.running, "Thinking", false,
            "/w", none, none, some 0, none⟩)], [], 3, 10000, 2⟩
        5 "/w" "n" "d" "t"
      = (Except.error ("Cannot start new task. Maximum concurrent tasks ("
          ++ toString
            (⟨[("bg-1", ⟨"bg-1", "a", "d", TaskStatus.running, "Thinking", false,
                "/w", none, none, some 0, none⟩),
              ("bg-2", ⟨"bg-2", "b", "d", TaskStatus.running, "Thinking", false,
                "/w", none, none, some 0, none⟩)], [], 3, 10000, 2⟩
              : BackgroundTaskManager).maxConcurrentTasks ++ ") reached."),
        ⟨[("bg-1", ⟨"bg-1", "a", "d", TaskStatus.running, "Thinking", false,
            "/w", none, none, some 0, none⟩),
          ("bg-2", ⟨"bg-2", "b", "d", TaskStatus.running, "Thinking", false,
            "/w", none, none, some 0, none⟩)], [], 3, 10000, 2⟩, []) :=
  createTask_at_ceiling_throws_unchanged _ 5 "/w" "n" "d" "t" (by decide)

/-- C8: cancelling a non-terminal (pending or running) task succeeds: the
sub-agent is aborted, the task is marked cancelled with an end time, any
pending `waitForTask` resolver is rejected with the cancellation error and
removed, and the `runTask` success path afterwards fires no result-listener
notification and leaves the state unchanged; cancelling a task already in a
terminal state throws. -/
theorem cancelTask_spec (m : BackgroundTaskManager) (now now₂ : Nat)
    (taskId : String) (task : BackgroundTask)
    (h : alookup m.tasks taskId = some task) :
    ((task.status = TaskStatus.pending ∨ task.status = TaskStatus.running) →
      (m.cancelTask now taskId).1 = Except.ok () ∧
      alookup ((m.cancelTask now taskId).2.1).tasks taskId
        = some { task with status := TaskStatus.cancelled, activity := "", endTime := some now, agentAborted := true } ∧
      (taskId ∈ m.resolvers →
        BtmEvent.waiterRejected taskId ("Task " ++ taskId ++ " was cancelled")
          ∈ (m.cancelTask now taskId).2.2) ∧
      taskId ∉ ((m.cancelTask now taskId).2.1).resolvers ∧
      (∀ r, BackgroundTaskManager.finishTaskSuccess
          (m.cancelTask now taskId).2.1 now₂ taskId r
        = ((m.cancelTask now taskId).2.1, []))) ∧
    (task.status.isTerminal = true →
      (m.cancelTask now taskId).1
        = Except.error ("Task " ++ taskId ++ " is already "
            ++ statusText task.status)) := by
  constructor
  · intro hstat
    have hterm : task.status.isTerminal = false := by
      rcases hstat with h1 | h1 <;> simp [h1, TaskStatus.isTerminal]
    unfold BackgroundTaskManager.cancelTask
    rw [h]
    simp only [hterm, Bool.false_eq_true, if_false]
    refine ⟨?_, ?_, ?_, ?_, ?_⟩
    · simp
    · exact alookup_aset_self m.tasks taskId _
    · intro hres
      simp [hres]
    · intro hmem
      have := List.mem_filter.mp hmem
      simp at this
    · intro r
      unfold BackgroundTaskManager.finishTaskSuccess
      rw [alookup_aset_self]
      simp
  · intro hterm
    unfold BackgroundTaskManager.cancelTask
    rw [h]
    simp [hterm]

/-- Witness for `cancelTask_spec`: a running task with a pending waiter. -/
theorem cancelTask_spec_witness :
    (BackgroundTaskManager.cancelTask
        ⟨[("bg-1", ⟨"bg-1", "n", "d", TaskStatus.running, "Thinking", false,
            "/w", none, none, some 1, none⟩)], ["bg-1"], 2, 10000, 2⟩
        5 "bg-1").1 = Except.ok () ∧
    BtmEvent.waiterRejected "bg-1" "Task bg-1 was cancelled"
      ∈ (BackgroundTaskManager.cancelTask
          ⟨[("bg-1", ⟨"bg-1", "n", "d", TaskStatus.running, "Thinking", false,
              "/w", none, none, some 1, none⟩)], ["bg-1"], 2, 10000, 2⟩
          5 "bg-1").2.2 ∧
    "bg-1" ∉ ((BackgroundTaskManager.cancelTask
        ⟨[("bg-1", ⟨"bg-1", "n", "d", TaskStatus.running, "Thinking", false,
            "/w", none, none, some 1, none⟩)], ["bg-1"], 2, 10000, 2⟩
        5 "bg-1").2.1).resolvers ∧
    BackgroundTaskManager.finishTaskSuccess
        ((BackgroundTaskManager.cancelTask
          ⟨[("bg-1", ⟨"bg-1", "n", "d", TaskStatus.running, "Thinking", false,
              "/w", none, none, some 1, none⟩)], ["bg-1"], 2, 10000, 2⟩
          5 "bg-1").2.1) 9 "bg-1" "done"
      = ((BackgroundTaskManager.cancelTask
          ⟨[("bg-1", ⟨"bg-1", "n", "d", TaskStatus.running, "Thinking", false,
              "/w", none, none, some 1, none⟩)], ["bg-1"], 2, 10000, 2⟩
          5 "bg-1").2.1, []) := by
  have H := (cancelTask_spec
    ⟨[("bg-1", ⟨"bg-1", "n", "d", TaskStatus.running, "Thinking", false,
        "/w", none, none, some 1, none⟩)], ["bg-1"], 2, 10000, 2⟩
    5 9 "bg-1"
    ⟨"bg-1", "n", "d", TaskStatus.running, "Thinking", false,
      "/w", none, none, some 1, none⟩
    (by decide)).1 (Or.inr rfl)
  exact ⟨H.1, H.2.2.1 (by decide), H.2.2.2.1, H.2.2.2.2 "done"⟩

/-- C10: `waitForTask` rejects immediately with `Task <id> not found` when
the id has no record in the task map — never created, or removed by the
auto-cleanup timer once the task was terminal — so a completed task's
stored result is retrievable via `waitForTask` or `getTask` only during
the cleanup grace window. -/
theorem waitForTask_not_found_and_cleanup (m : BackgroundTaskManager)
    (taskId : String) :
    (alookup m.tasks taskId = none →
      (m.waitForTaskNow taskId).1
          = WaitNow.rejected ("Task " ++ taskId ++ " not found") ∧
      m.getTask taskId = none) ∧
    (∀ task, alookup m.tasks taskId = some task →
      task.status.isTerminal = true →
      ((m.cleanupFire taskId).1.getTask taskId = none ∧
        ((m.cleanupFire taskId).1.waitForTaskNow taskId).1
          = WaitNow.rejected ("Task " ++ taskId ++ " not found"))) ∧
    (∀ task r, alookup m.tasks taskId = some task →
      task.status = TaskStatus.completed → task.result = some r → r ≠ "" →
      (m.waitForTaskNow taskId).1 = WaitNow.resolved r ∧
      m.getTask taskId = some task) := by
  refine ⟨?_, ?_, ?_⟩
  · intro h
    constructor
    · unfold BackgroundTaskManager.waitForTaskNow
      rw [h]
    · exact h

  · intro task h hterm
    have hclean : ((m.cleanupFire taskId).1).tasks = aerase m.tasks taskId := by
      unfold BackgroundTaskManager.cleanupFire
      rw [h]
      simp [hterm]
    have hnone : alookup ((m.cleanupFire taskId).1).tasks taskId = none := by
      rw [hclean]
      exact alookup_aerase_self m.tasks taskId
    constructor
    · exact hnone
    · unfold BackgroundTaskManager.waitForTaskNow
      rw [hnone]
  · intro task r h hc hr hne
    constructor
    · unfold BackgroundTaskManager.waitForTaskNow
      rw [h]
      have ht : BackgroundTaskManager.strTruthy (some r) = true := by
        simpa [BackgroundTaskManager.strTruthy] using hne
      simp [hc, ht, hr]
    · exact h

/-- Witness for `waitForTask_not_found_and_cleanup`: an unknown id on an
empty manager, and a completed task whose stored result is still
retrievable before cleanup and gone after it. -/
theorem waitForTask_not_found_and_cleanup_witness :
    (BackgroundTaskManager.waitForTaskNow BackgroundTaskManager.create
        "bg-9").1 = WaitNow.rejected "Task bg-9 not found" ∧
    (BackgroundTaskManager.waitForTaskNow
        ⟨[("bg-1", ⟨"bg-1", "n", "d", TaskStatus.completed, "", false, "/w",
            some "out", none, some 1, some 2⟩)], [], 2, 10000, 2⟩
        "bg-1").1 = WaitNow.resolved "out" ∧
    ((BackgroundTaskManager.cleanupFire
        ⟨[("bg-1", ⟨"bg-1", "n", "d", TaskStatus.completed, "", false, "/w",
            some "out", none, some 1, some 2⟩)], [], 2, 10000, 2⟩
        "bg-1").1.waitForTaskNow "bg-1").1
      = WaitNow.rejected "Task bg-1 not found" := by
  refine ⟨((waitForTask_not_found_and_cleanup BackgroundTaskManager.create
      "bg-9").1 (by decide)).1, ?_, ?_⟩
  · exact ((waitForTask_not_found_and_cleanup
      ⟨[("bg-1", ⟨"bg-1", "n", "d", TaskStatus.completed, "", false, "/w",
          some "out", none, some 1, some 2⟩)], [], 2, 10000, 2⟩
      "bg-1").2.2
      ⟨"bg-1", "n", "d", TaskStatus.completed, "", false, "/w",
        some "out", none, some 1, some 2⟩
      "out" (by decide) rfl rfl (by decide)).1
  · exact ((waitForTask_not_found_and_cleanup
      ⟨[("bg-1", ⟨"bg-1", "n", "d", TaskStatus.completed, "", false, "/w",
          some "out", none, some 1, some 2⟩)], [], 2, 10000, 2⟩
      "bg-1").2.1
      ⟨"bg-1", "n", "d", TaskStatus.completed, "", false, "/w",
        some "out", none, some 1, some 2⟩
      (by decide) rfl).2

/-! ## Claim C2 — `executeTool` and rejected promises -/

/-- C2 is violated by the code: `executeTool('wait_for_task', {task_id:
'bg-1'})` with no task `bg-1` produces a rejected promise carrying
`Task bg-1 not found`, not a resolved `'Error: ...'` text — the
`waitForTask` promise is returned from inside the `try` without `await`,
so its rejection bypasses the catch and propagates out of the agent loop's
`await`.  (None of the filesystem/shell/skill oracles matter for this
input; they are arbitrary concrete stubs.) -/
theorem executeTool_wait_for_task_rejects :
    (executeTool
        ⟨fun _ => Except.error "ENOENT", fun _ _ => Except.ok (),
         fun _ => Except.ok ("", ""), fun _ => Except.ok [], fun _ => false,
         fun _ => Except.ok (), some BackgroundTaskManager.create,
         fun _ => Except.error "never settles", [], fun _ => none,
         false, fun _ => false, fun _ => Except.error "no mcp", "/w", 0⟩
        "wait_for_task"
        ⟨none, none, none, none, none, none, some "bg-1", none⟩).1
      = ToolOutcome.rejected "Task bg-1 not found" := by
  decide

end AssocMapLemmas

end Tod
